import Mathlib

/-
  Verification of the SSE (server-sent events) connection registry and
  dispatch engine described by the repository's design document and the
  `src/features/sse` README.

  The implementation files `services/sse-manager.ts`, `services/sse-service.ts`
  and `hooks/useSSE.tsx` are not present in the repository (only the README,
  the public re-export `index.ts` and the `SSETestPanel` component are), so the
  registry, dispatcher, heartbeat and service facade below are modelled from
  the specification.  The `SSETestPanel` definitions near the end of the file
  are translated directly from the component's source.
-/

namespace SSE

/-- Modelled from the spec: the `Connection` value object of the missing
`services/sse-manager.ts` — identity, optional user and session identity,
metadata used only by dispatcher filter predicates, and liveness timestamps. -/
structure Connection where
  id : Nat
  userId : Option Nat
  sessionId : Option Nat
  metadata : List (String × String)
  createdAt : Nat
  lastSeenAt : Nat
deriving DecidableEq

/-- Modelled from the spec: the generic event envelope — a type string, an
optional event id and an opaque data payload. -/
structure SSEvent where
  type : String
  id : Option String
  data : String
deriving DecidableEq

/-- Modelled from the spec: the error taxonomy of section 7 that can surface
to a caller (per-connection write failures are never raised). -/
inductive SSEError where
  | DuplicateIdError
  | UnknownTargetError
deriving DecidableEq

/-- Modelled from the spec: the `ConnectionRegistry` of the missing
`services/sse-manager.ts` — a primary store from connection id to connection
plus derived secondary indexes by user id and by session id. -/
structure Registry where
  store : List Connection
  userIndex : Nat → List Nat
  sessionIndex : Nat → List Nat

def Registry.empty : Registry :=
  ⟨[], fun _ => [], fun _ => []⟩

def Registry.get (r : Registry) (cid : Nat) : Option Connection :=
  r.store.find? (fun c => c.id == cid)

def Registry.storeIds (r : Registry) : List Nat :=
  r.store.map (fun c => c.id)

def Registry.byUser (r : Registry) (u : Nat) : List Nat :=
  r.userIndex u

def Registry.bySession (r : Registry) (s : Nat) : List Nat :=
  r.sessionIndex s

def Registry.count (r : Registry) : Nat :=
  r.store.length

/-- Insert a connection id into the id set of key `k` of a secondary index. -/
def indexInsert (idx : Nat → List Nat) (k cid : Nat) : Nat → List Nat :=
  fun v => if v = k then cid :: idx k else idx v

/-- Erase a connection id from the id set of key `k` of a secondary index. -/
def indexErase (idx : Nat → List Nat) (k cid : Nat) : Nat → List Nat :=
  fun v => if v = k then (idx k).erase cid else idx v

/-- Update a secondary index for an optional key (absent key: no change). -/
def optIndexInsert (idx : Nat → List Nat) (k : Option Nat) (cid : Nat) : Nat → List Nat :=
  match k with
  | some u => indexInsert idx u cid
  | none => idx

/-- Erase from a secondary index for an optional key (absent key: no change). -/
def optIndexErase (idx : Nat → List Nat) (k : Option Nat) (cid : Nat) : Nat → List Nat :=
  match k with
  | some u => indexErase idx u cid
  | none => idx

/-- Modelled from the spec: `add(connection)` inserts into the primary store
and all applicable secondary indexes; fails with `DuplicateIdError` if the id
already exists. -/
def Registry.add (r : Registry) (c : Connection) : Except SSEError Registry :=
  match r.get c.id with
  | some _ => .error .DuplicateIdError
  | none =>
    .ok { store := c :: r.store
          userIndex := optIndexInsert r.userIndex c.userId c.id
          sessionIndex := optIndexInsert r.sessionIndex c.sessionId c.id }

/-- Modelled from the spec: `remove(connectionId)` removes from the primary
store and all secondary indexes; removing a non-existent id is a no-op. -/
def Registry.remove (r : Registry) (cid : Nat) : Registry :=
  match r.get cid with
  | none => r
  | some c =>
    { store := r.store.filter (fun d => d.id ≠ cid)
      userIndex := optIndexErase r.userIndex c.userId cid
      sessionIndex := optIndexErase r.sessionIndex c.sessionId cid }

/-- A registry add/remove operation, for stating the index-consistency
invariant over arbitrary operation sequences. -/
inductive RegOp where
  | add (c : Connection)
  | remove (cid : Nat)

/-- Apply one registry operation; a failing `add` (duplicate id) leaves the
registry unchanged. -/
def applyOp (r : Registry) : RegOp → Registry
  | .add c =>
    match r.add c with
    | .ok r1 => r1
    | .error _ => r
  | .remove cid => r.remove cid

/-- Run a sequence of add/remove operations from the empty registry. -/
def runOps (ops : List RegOp) : Registry :=
  ops.foldl applyOp Registry.empty

/-- The registry's internal consistency invariant: primary-store ids are
distinct, both secondary indexes are sound (every indexed id belongs to a
stored connection with the matching user/session), complete (every stored
connection appears in the index entries of its user/session), and duplicate
free. -/
structure Inv (r : Registry) : Prop where
  idsNodup : r.storeIds.Nodup
  userSound : ∀ u cid, cid ∈ r.userIndex u →
    ∃ c, c ∈ r.store ∧ c.id = cid ∧ c.userId = some u
  userComplete : ∀ c, c ∈ r.store → ∀ u, c.userId = some u → c.id ∈ r.userIndex u
  userNodup : ∀ u, (r.userIndex u).Nodup
  sessSound : ∀ s cid, cid ∈ r.sessionIndex s →
    ∃ c, c ∈ r.store ∧ c.id = cid ∧ c.sessionId = some s
  sessComplete : ∀ c, c ∈ r.store → ∀ s, c.sessionId = some s → c.id ∈ r.sessionIndex s
  sessNodup : ∀ s, (r.sessionIndex s).Nodup

theorem get_eq_none_iff (r : Registry) (cid : Nat) :
    r.get cid = none ↔ ∀ c ∈ r.store, c.id ≠ cid := by
  simp [Registry.get, List.find?_eq_none]

theorem get_mem_of_eq_some {r : Registry} {cid : Nat} {c : Connection}
    (h : r.get cid = some c) : c ∈ r.store ∧ c.id = cid := by
  refine ⟨List.mem_of_find?_eq_some h, ?_⟩
  have := List.find?_some h
  simpa using this

theorem inv_empty : Inv Registry.empty := by
  constructor <;> simp [Registry.empty, Registry.storeIds]

theorem mem_storeIds {r : Registry} {cid : Nat} :
    cid ∈ r.storeIds ↔ ∃ c, c ∈ r.store ∧ c.id = cid := by
  simp [Registry.storeIds]

theorem indexInsert_same (idx : Nat → List Nat) (k cid : Nat) :
    indexInsert idx k cid k = cid :: idx k := by
  simp [indexInsert]

theorem indexInsert_other (idx : Nat → List Nat) (k cid v : Nat) (h : v ≠ k) :
    indexInsert idx k cid v = idx v := by
  simp [indexInsert, h]

theorem indexErase_same (idx : Nat → List Nat) (k cid : Nat) :
    indexErase idx k cid k = (idx k).erase cid := by
  simp [indexErase]

theorem indexErase_other (idx : Nat → List Nat) (k cid v : Nat) (h : v ≠ k) :
    indexErase idx k cid v = idx v := by
  simp [indexErase, h]

theorem mem_optIndexInsert {idx : Nat → List Nat} {k : Option Nat} {cid v x : Nat} :
    x ∈ optIndexInsert idx k cid v ↔ (k = some v ∧ x = cid) ∨ x ∈ idx v := by
  cases k with
  | none => simp [optIndexInsert]
  | some u =>
    by_cases h : v = u
    · subst h
      rw [optIndexInsert, indexInsert_same]
      simp
    · rw [optIndexInsert, indexInsert_other idx u cid v h]
      simp [Ne.symm h]

theorem mem_optIndexErase {idx : Nat → List Nat} (hN : ∀ v, (idx v).Nodup)
    {k : Option Nat} {cid v x : Nat} :
    x ∈ optIndexErase idx k cid v ↔ x ∈ idx v ∧ ¬(k = some v ∧ x = cid) := by
  cases k with
  | none => simp [optIndexErase]
  | some u =>
    by_cases h : v = u
    · subst h
      rw [optIndexErase, indexErase_same]
      rw [List.Nodup.mem_erase_iff (hN v)]
      constructor
      · rintro ⟨hne, hmem⟩; exact ⟨hmem, by simp [hne]⟩
      · rintro ⟨hmem, hni⟩
        refine ⟨?_, hmem⟩
        intro hx; exact hni ⟨rfl, hx⟩
    · rw [optIndexErase, indexErase_other idx u cid v h]
      simp [Ne.symm h]

theorem storeIds_remove (r : Registry) (cid : Nat) :
    (r.remove cid).storeIds = r.storeIds.filter (fun i => i ≠ cid) := by
  unfold Registry.remove
  cases hg : r.get cid with
  | none =>
    have hfresh := (get_eq_none_iff r cid).mp hg
    simp only [Registry.storeIds]
    rw [List.filter_map, List.filter_eq_self.mpr]
    intro c hc
    simpa using hfresh c hc
  | some c =>
    simp only [Registry.storeIds]
    rw [List.filter_map]
    rfl

theorem inv_add {r : Registry} (hInv : Inv r) {c : Connection} {r1 : Registry}
    (h : r.add c = .ok r1) : Inv r1 := by
  unfold Registry.add at h
  cases hg : r.get c.id with
  | some d => rw [hg] at h; exact absurd h (by simp)
  | none =>
    rw [hg] at h
    have hfresh : ∀ d ∈ r.store, d.id ≠ c.id := (get_eq_none_iff r c.id).mp hg
    cases h
    constructor
    · simp only [Registry.storeIds, List.map_cons, List.nodup_cons]
      refine ⟨?_, hInv.idsNodup⟩
      simp only [List.mem_map, not_exists]
      rintro d ⟨hd, hid⟩
      exact hfresh d hd hid
    · intro u cid hmem
      rcases mem_optIndexInsert.mp hmem with ⟨hk, hx⟩ | hold
      · exact ⟨c, List.mem_cons_self c r.store, hx.symm, hk⟩
      · rcases hInv.userSound u cid hold with ⟨d, hd, hid, hu⟩
        exact ⟨d, List.mem_cons_of_mem c hd, hid, hu⟩
    · intro d hd u hu
      rcases List.mem_cons.mp hd with rfl | hd
      · exact mem_optIndexInsert.mpr (Or.inl ⟨hu, rfl⟩)
      · exact mem_optIndexInsert.mpr (Or.inr (hInv.userComplete d hd u hu))
    · intro v
      cases hk : c.userId with
      | none => simpa [optIndexInsert, hk] using hInv.userNodup v
      | some u =>
        show (indexInsert r.userIndex u c.id v).Nodup
        by_cases hv : v = u
        · subst hv
          rw [indexInsert_same, List.nodup_cons]
          refine ⟨?_, hInv.userNodup v⟩
          intro hmem
          rcases hInv.userSound v c.id hmem with ⟨d, hd, hid, _⟩
          exact hfresh d hd hid
        · rw [indexInsert_other _ u c.id v hv]
          exact hInv.userNodup v
    · intro s cid hmem
      rcases mem_optIndexInsert.mp hmem with ⟨hk, hx⟩ | hold
      · exact ⟨c, List.mem_cons_self c r.store, hx.symm, hk⟩
      · rcases hInv.sessSound s cid hold with ⟨d, hd, hid, hs⟩
        exact ⟨d, List.mem_cons_of_mem c hd, hid, hs⟩
    · intro d hd s hs
      rcases List.mem_cons.mp hd with rfl | hd
      · exact mem_optIndexInsert.mpr (Or.inl ⟨hs, rfl⟩)
      · exact mem_optIndexInsert.mpr (Or.inr (hInv.sessComplete d hd s hs))
    · intro v
      cases hk : c.sessionId with
      | none => simpa [optIndexInsert, hk] using hInv.sessNodup v
      | some s =>
        show (indexInsert r.sessionIndex s c.id v).Nodup
        by_cases hv : v = s
        · subst hv
          rw [indexInsert_same, List.nodup_cons]
          refine ⟨?_, hInv.sessNodup v⟩
          intro hmem
          rcases hInv.sessSound v c.id hmem with ⟨d, hd, hid, _⟩
          exact hfresh d hd hid
        · rw [indexInsert_other _ s c.id v hv]
          exact hInv.sessNodup v

theorem mem_store_remove {r : Registry} {cid : Nat} {d : Connection} :
    d ∈ (r.remove cid).store ↔ d ∈ r.store ∧ d.id ≠ cid := by
  unfold Registry.remove
  cases hg : r.get cid with
  | none =>
    have hfresh := (get_eq_none_iff r cid).mp hg
    simp only
    constructor
    · intro hd; exact ⟨hd, hfresh d hd⟩
    · exact fun h => h.1
  | some c => simp [List.mem_filter]

theorem inv_remove {r : Registry} (hInv : Inv r) (cid : Nat) : Inv (r.remove cid) := by
  cases hg : r.get cid with
  | none => unfold Registry.remove; rw [hg]; exact hInv
  | some c =>
    rcases get_mem_of_eq_some hg with ⟨hcmem, hcid⟩
    have hstore : (r.remove cid).store = r.store.filter (fun d => d.id ≠ cid) := by
      unfold Registry.remove; rw [hg]
    have huidx : (r.remove cid).userIndex = optIndexErase r.userIndex c.userId cid := by
      unfold Registry.remove; rw [hg]
    have hsidx : (r.remove cid).sessionIndex = optIndexErase r.sessionIndex c.sessionId cid := by
      unfold Registry.remove; rw [hg]
    constructor
    · rw [storeIds_remove]
      exact hInv.idsNodup.filter _
    · intro u x hmem
      rw [huidx] at hmem
      rcases (mem_optIndexErase hInv.userNodup).mp hmem with ⟨hold, hni⟩
      rcases hInv.userSound u x hold with ⟨d, hd, hid, hu⟩
      refine ⟨d, ?_, hid, hu⟩
      rw [hstore, List.mem_filter]
      refine ⟨hd, ?_⟩
      simp only [decide_eq_true_eq]
      intro hdc
      have hdceq : d = c := by
        apply List.inj_on_of_nodup_map hInv.idsNodup hd hcmem
        rw [hdc, hcid]
      apply hni
      refine ⟨?_, by rw [← hid, hdc]⟩
      rw [← hdceq]; exact hu
    · intro d hd u hu
      rw [hstore, List.mem_filter] at hd
      rcases hd with ⟨hd, hne⟩
      simp only [decide_eq_true_eq] at hne
      rw [huidx]
      refine (mem_optIndexErase hInv.userNodup).mpr ⟨hInv.userComplete d hd u hu, ?_⟩
      rintro ⟨_, hdc⟩
      exact hne hdc
    · intro v
      rw [huidx]
      cases hk : c.userId with
      | none => simpa [optIndexErase] using hInv.userNodup v
      | some u =>
        by_cases hv : v = u
        · subst hv
          rw [optIndexErase, indexErase_same]
          exact (hInv.userNodup v).erase cid
        · rw [optIndexErase, indexErase_other _ u cid v hv]
          exact hInv.userNodup v
    · intro s x hmem
      rw [hsidx] at hmem
      rcases (mem_optIndexErase hInv.sessNodup).mp hmem with ⟨hold, hni⟩
      rcases hInv.sessSound s x hold with ⟨d, hd, hid, hs⟩
      refine ⟨d, ?_, hid, hs⟩
      rw [hstore, List.mem_filter]
      refine ⟨hd, ?_⟩
      simp only [decide_eq_true_eq]
      intro hdc
      have hdceq : d = c := by
        apply List.inj_on_of_nodup_map hInv.idsNodup hd hcmem
        rw [hdc, hcid]
      apply hni
      refine ⟨?_, by rw [← hid, hdc]⟩
      rw [← hdceq]; exact hs
    · intro d hd s hs
      rw [hstore, List.mem_filter] at hd
      rcases hd with ⟨hd, hne⟩
      simp only [decide_eq_true_eq] at hne
      rw [hsidx]
      refine (mem_optIndexErase hInv.sessNodup).mpr ⟨hInv.sessComplete d hd s hs, ?_⟩
      rintro ⟨_, hdc⟩
      exact hne hdc
    · intro v
      rw [hsidx]
      cases hk : c.sessionId with
      | none => simpa [optIndexErase] using hInv.sessNodup v
      | some s =>
        by_cases hv : v = s
        · subst hv
          rw [optIndexErase, indexErase_same]
          exact (hInv.sessNodup v).erase cid
        · rw [optIndexErase, indexErase_other _ s cid v hv]
          exact hInv.sessNodup v

theorem inv_applyOp {r : Registry} (hInv : Inv r) (op : RegOp) : Inv (applyOp r op) := by
  cases op with
  | add c =>
    simp only [applyOp]
    cases ha : r.add c with
    | ok r1 => exact inv_add hInv ha
    | error e => exact hInv
  | remove cid => exact inv_remove hInv cid

theorem inv_foldl {r : Registry} (hInv : Inv r) (ops : List RegOp) :
    Inv (ops.foldl applyOp r) := by
  induction ops generalizing r with
  | nil => exact hInv
  | cons op rest ih => exact ih (inv_applyOp hInv op)

theorem inv_runOps (ops : List RegOp) : Inv (runOps ops) :=
  inv_foldl inv_empty ops

theorem inv_byUser_iff {r : Registry} (hInv : Inv r) (u cid : Nat) :
    cid ∈ r.byUser u ↔ ∃ c, c ∈ r.store ∧ c.id = cid ∧ c.userId = some u := by
  constructor
  · exact hInv.userSound u cid
  · rintro ⟨c, hc, rfl, hu⟩
    exact hInv.userComplete c hc u hu

theorem inv_bySession_iff {r : Registry} (hInv : Inv r) (s cid : Nat) :
    cid ∈ r.bySession s ↔ ∃ c, c ∈ r.store ∧ c.id = cid ∧ c.sessionId = some s := by
  constructor
  · exact hInv.sessSound s cid
  · rintro ⟨c, hc, rfl, hs⟩
    exact hInv.sessComplete c hc s hs

/-- C1: over every sequence of registry `add`/`remove` operations starting from
the empty registry, every connection id present in a secondary index (the
userId index and the sessionId index) also exists in the primary store, the
set `byUser u` contains exactly the ids of the stored connections whose
`userId` equals `u` (likewise `bySession`), and any id absent from the primary
store is absent from every secondary index — removal leaves no dangling
references. -/
theorem registry_index_consistency (ops : List RegOp) :
    (∀ u cid, cid ∈ (runOps ops).byUser u ↔
      ∃ c, c ∈ (runOps ops).store ∧ c.id = cid ∧ c.userId = some u)
    ∧ (∀ s cid, cid ∈ (runOps ops).bySession s ↔
      ∃ c, c ∈ (runOps ops).store ∧ c.id = cid ∧ c.sessionId = some s)
    ∧ (∀ u cid, cid ∈ (runOps ops).byUser u → cid ∈ (runOps ops).storeIds)
    ∧ (∀ s cid, cid ∈ (runOps ops).bySession s → cid ∈ (runOps ops).storeIds)
    ∧ (∀ cid, cid ∉ (runOps ops).storeIds →
        (∀ u, cid ∉ (runOps ops).byUser u) ∧ (∀ s, cid ∉ (runOps ops).bySession s)) := by
  have hInv := inv_runOps ops
  refine ⟨inv_byUser_iff hInv, inv_bySession_iff hInv, ?_, ?_, ?_⟩
  · intro u cid hmem
    rcases (inv_byUser_iff hInv u cid).mp hmem with ⟨c, hc, hid, _⟩
    exact mem_storeIds.mpr ⟨c, hc, hid⟩
  · intro s cid hmem
    rcases (inv_bySession_iff hInv s cid).mp hmem with ⟨c, hc, hid, _⟩
    exact mem_storeIds.mpr ⟨c, hc, hid⟩
  · intro cid habs
    constructor
    · intro u hmem
      rcases (inv_byUser_iff hInv u cid).mp hmem with ⟨c, hc, hid, _⟩
      exact habs (mem_storeIds.mpr ⟨c, hc, hid⟩)
    · intro s hmem
      rcases (inv_bySession_iff hInv s cid).mp hmem with ⟨c, hc, hid, _⟩
      exact habs (mem_storeIds.mpr ⟨c, hc, hid⟩)

/-- C3: `add(connection)` fails with `DuplicateIdError` when the connection's
id already exists in the primary store; for a fresh id it inserts the
connection into the primary store and into every applicable secondary index
(the userId index when `userId` is present, the sessionId index when
`sessionId` is present). -/
theorem add_duplicate_or_insert (r : Registry) (c : Connection) :
    ((r.get c.id).isSome → r.add c = .error .DuplicateIdError)
    ∧ (r.get c.id = none → ∃ r1, r.add c = .ok r1 ∧ c ∈ r1.store
        ∧ (∀ u, c.userId = some u → c.id ∈ r1.byUser u)
        ∧ (∀ s, c.sessionId = some s → c.id ∈ r1.bySession s)) := by
  constructor
  · intro hdup
    rcases Option.isSome_iff_exists.mp hdup with ⟨d, hd⟩
    unfold Registry.add
    rw [hd]
  · intro hnone
    refine ⟨{ store := c :: r.store
              userIndex := optIndexInsert r.userIndex c.userId c.id
              sessionIndex := optIndexInsert r.sessionIndex c.sessionId c.id },
      ?_, ?_, ?_, ?_⟩
    · unfold Registry.add
      rw [hnone]
    · exact List.mem_cons_self c r.store
    · intro u hu
      exact mem_optIndexInsert.mpr (Or.inl ⟨hu, rfl⟩)
    · intro s hs
      exact mem_optIndexInsert.mpr (Or.inl ⟨hs, rfl⟩)

theorem get_remove_self (r : Registry) (cid : Nat) : (r.remove cid).get cid = none := by
  rw [get_eq_none_iff]
  intro c hc
  exact (mem_store_remove.mp hc).2

/-- C4: removing a connection id that is not in the primary store is a no-op
that raises no error and leaves the registry (primary store and all secondary
indexes) unchanged, and `remove` is idempotent. -/
theorem remove_noop_idempotent (r : Registry) (cid : Nat) :
    (r.get cid = none → r.remove cid = r)
    ∧ (r.remove cid).remove cid = r.remove cid := by
  have hbase : ∀ r1 : Registry, r1.get cid = none → r1.remove cid = r1 := by
    intro r1 h1
    unfold Registry.remove
    rw [h1]
  exact ⟨hbase r, hbase (r.remove cid) (get_remove_self r cid)⟩

/-- Modelled from the spec: the dispatch target selector — all connections,
one user's connections, one session's connections, or a predicate over
connection metadata. -/
inductive Target where
  | all
  | user (u : Nat)
  | session (s : Nat)
  | pred (p : List (String × String) → Bool)

/-- Modelled from the spec: a raw target specification as supplied by a
caller; a malformed one (unknown kind or missing field) is structurally
invalid input. -/
structure RawTarget where
  kind : String
  userId : Option Nat
  sessionId : Option Nat
  predicate : Option (List (String × String) → Bool)

/-- Modelled from the spec: recognise a raw target, surfacing
`UnknownTargetError` for a malformed target specification. -/
def parseTarget (t : RawTarget) : Except SSEError Target :=
  match t.kind, t.userId, t.sessionId, t.predicate with
  | "all", _, _, _ => .ok .all
  | "user", some u, _, _ => .ok (.user u)
  | "session", _, some s, _ => .ok (.session s)
  | "predicate", _, _, some p => .ok (.pred p)
  | _, _, _, _ => .error .UnknownTargetError

/-- The observable transport actions of the core: an attempted write of an
event frame to a connection's output channel, and the closing of a
connection's transport. -/
inductive Action where
  | write (cid : Nat) (e : SSEvent)
  | close (cid : Nat)
deriving DecidableEq

/-- Modelled from the spec: the per-call result reporting counts of succeeded
and failed deliveries. -/
structure DispatchResult where
  succeeded : Nat
  failed : Nat
deriving DecidableEq

/-- Modelled from the spec: resolve the matching connection set from the
registry — via the appropriate secondary index for user/session targets, a
full scan otherwise. -/
def Registry.resolve (r : Registry) : Target → List Connection
  | .all => r.store
  | .user u => (r.userIndex u).filterMap r.get
  | .session s => (r.sessionIndex s).filterMap r.get
  | .pred p => r.store.filter (fun c => p c.metadata)

/-- Refresh `lastSeenAt` of connection `cid` after a successful write. -/
def Registry.touch (r : Registry) (cid now : Nat) : Registry :=
  { r with store := r.store.map (fun c =>
      if c.id = cid then { c with lastSeenAt := now } else c) }

/-- Modelled from the spec: attempt the serialized write to each resolved
connection in turn.  The transport oracle `writeOk` says which connection
writes succeed; a successful write refreshes the connection's `lastSeenAt`,
and a failed write causes immediate removal of that one connection and
closure of its transport, never aborting delivery to the others. -/
def dispatchList (writeOk : Nat → Bool) (now : Nat) (e : SSEvent) :
    List Connection → Registry → Registry × DispatchResult × List Action
  | [], r => (r, ⟨0, 0⟩, [])
  | c :: cs, r =>
    if writeOk c.id then
      let out := dispatchList writeOk now e cs (r.touch c.id now)
      (out.1, ⟨out.2.1.succeeded + 1, out.2.1.failed⟩, .write c.id e :: out.2.2)
    else
      let out := dispatchList writeOk now e cs (r.remove c.id)
      (out.1, ⟨out.2.1.succeeded, out.2.1.failed + 1⟩,
        .write c.id e :: .close c.id :: out.2.2)

/-- Modelled from the spec: `dispatch(event, target)` resolves the target and
attempts delivery to every resolved connection. -/
def Registry.dispatch (r : Registry) (writeOk : Nat → Bool) (now : Nat) (e : SSEvent)
    (t : Target) : Registry × DispatchResult × List Action :=
  dispatchList writeOk now e (r.resolve t) r

/-- Modelled from the spec: dispatch on a raw target; only a structurally
invalid target specification is surfaced to the caller as an error. -/
def Registry.dispatchRaw (r : Registry) (writeOk : Nat → Bool) (now : Nat) (e : SSEvent)
    (t : RawTarget) : Except SSEError (Registry × DispatchResult × List Action) :=
  (parseTarget t).map (r.dispatch writeOk now e)

/-- The ids of the resolved connections whose write fails. -/
def failIds (writeOk : Nat → Bool) (conns : List Connection) : List Nat :=
  (conns.filter (fun c => ! writeOk c.id)).map (fun c => c.id)

/-- The transport actions a dispatch over `conns` performs: an attempted write
to every connection, plus a close for each failed one. -/
def actionsFor (writeOk : Nat → Bool) (e : SSEvent) : List Connection → List Action
  | [] => []
  | c :: cs =>
    (if writeOk c.id then [Action.write c.id e]
     else [Action.write c.id e, Action.close c.id]) ++ actionsFor writeOk e cs

theorem touch_storeIds (r : Registry) (cid now : Nat) :
    (r.touch cid now).storeIds = r.storeIds := by
  simp only [Registry.touch, Registry.storeIds, List.map_map]
  apply List.map_congr_left
  intro c _
  by_cases h : c.id = cid <;> simp [h]

theorem touch_count (r : Registry) (cid now : Nat) :
    (r.touch cid now).count = r.count := by
  simp [Registry.touch, Registry.count]

theorem count_eq_length_storeIds (r : Registry) : r.count = r.storeIds.length := by
  simp [Registry.count, Registry.storeIds]

theorem dispatchList_result (writeOk : Nat → Bool) (now : Nat) (e : SSEvent)
    (conns : List Connection) : ∀ r : Registry,
    (dispatchList writeOk now e conns r).2.1.succeeded
        = (conns.filter (fun c => writeOk c.id)).length
    ∧ (dispatchList writeOk now e conns r).2.1.failed
        = (conns.filter (fun c => ! writeOk c.id)).length
    ∧ (dispatchList writeOk now e conns r).2.2 = actionsFor writeOk e conns := by
  induction conns with
  | nil => intro r; simp [dispatchList, actionsFor]
  | cons c cs ih =>
    intro r
    by_cases h : writeOk c.id
    · simpa [dispatchList, actionsFor, h] using ih (r.touch c.id now)
    · simpa [dispatchList, actionsFor, h] using ih (r.remove c.id)

theorem dispatchList_storeIds (writeOk : Nat → Bool) (now : Nat) (e : SSEvent)
    (conns : List Connection) : ∀ r : Registry,
    (dispatchList writeOk now e conns r).1.storeIds
      = r.storeIds.filter (fun i => ¬ i ∈ failIds writeOk conns) := by
  induction conns with
  | nil =>
    intro r
    rw [List.filter_eq_self.mpr]
    · simp [dispatchList]
    · intro i _
      simp [failIds]
  | cons c cs ih =>
    intro r
    by_cases h : writeOk c.id
    · have hfail : failIds writeOk (c :: cs) = failIds writeOk cs := by
        simp [failIds, h]
      rw [hfail]
      simp only [dispatchList, if_pos h]
      rw [ih (r.touch c.id now), touch_storeIds]
    · have hfail : failIds writeOk (c :: cs) = c.id :: failIds writeOk cs := by
        simp [failIds, h]
      rw [hfail]
      simp only [dispatchList, if_neg h]
      rw [ih (r.remove c.id), storeIds_remove, @List.filter_filter _ _ _ r.storeIds]
      apply List.filter_congr
      intro i _
      by_cases hic : i = c.id <;> simp [hic]

theorem dispatchList_count (writeOk : Nat → Bool) (now : Nat) (e : SSEvent)
    (conns : List Connection) : ∀ r : Registry,
    (conns.map (fun c => c.id)).Nodup →
    (∀ c ∈ conns, c.id ∈ r.storeIds) →
    r.storeIds.Nodup →
    (dispatchList writeOk now e conns r).1.count
      = r.count - (conns.filter (fun c => ! writeOk c.id)).length := by
  induction conns with
  | nil => intro r _ _ _; simp [dispatchList]
  | cons c cs ih =>
    intro r hnd hmem hrnd
    simp only [List.map_cons, List.nodup_cons] at hnd
    by_cases h : writeOk c.id
    · simp only [dispatchList, if_pos h]
      have := ih (r.touch c.id now) hnd.2
        (fun d hd => by rw [touch_storeIds]; exact hmem d (List.mem_cons_of_mem c hd))
        (by rw [touch_storeIds]; exact hrnd)
      rw [this, touch_count]
      simp [h]
    · simp only [dispatchList, if_neg h]
      have hcid : c.id ∈ r.storeIds := hmem c (List.mem_cons_self c cs)
      have hmem2 : ∀ d ∈ cs, d.id ∈ (r.remove c.id).storeIds := by
        intro d hd
        rw [storeIds_remove, List.mem_filter]
        refine ⟨hmem d (List.mem_cons_of_mem c hd), ?_⟩
        simp only [decide_eq_true_eq]
        intro hde
        exact hnd.1 (hde ▸ List.mem_map_of_mem (fun c => c.id) hd)
      have hnd2 : (r.remove c.id).storeIds.Nodup := by
        rw [storeIds_remove]; exact hrnd.filter _
      have := ih (r.remove c.id) hnd.2 hmem2 hnd2
      rw [this]
      have hrc : (r.remove c.id).count = r.count - 1 := by
        have hfe : r.storeIds.filter (fun i => decide (i ≠ c.id)) = r.storeIds.erase c.id := by
          rw [List.Nodup.erase_eq_filter hrnd]
          apply List.filter_congr
          intro i _
          by_cases hic : i = c.id <;> simp [hic]
        rw [count_eq_length_storeIds, count_eq_length_storeIds, storeIds_remove, hfe,
          List.length_erase_of_mem hcid]
      rw [hrc]
      simp only [List.filter_cons, h]
      simp only [Bool.not_false, if_pos]
      rw [List.length_cons, Nat.sub_sub, Nat.add_comm]

theorem length_filter_add_length_filter_not (p : α → Bool) (l : List α) :
    (l.filter p).length + (l.filter (fun a => ! p a)).length = l.length := by
  induction l with
  | nil => simp
  | cons x xs ih =>
    by_cases h : p x <;> simp [List.filter_cons, h, ← ih] <;> omega

theorem write_mem_actionsFor {writeOk : Nat → Bool} {e : SSEvent}
    {conns : List Connection} {c : Connection} (hc : c ∈ conns) :
    Action.write c.id e ∈ actionsFor writeOk e conns := by
  induction conns with
  | nil => cases hc
  | cons d ds ih =>
    rcases List.mem_cons.mp hc with rfl | hc
    · by_cases h : writeOk c.id <;> simp [actionsFor, h]
    · by_cases h : writeOk d.id <;> simp [actionsFor, h, ih hc]

theorem close_mem_actionsFor {writeOk : Nat → Bool} {e : SSEvent}
    {conns : List Connection} {c : Connection} (hc : c ∈ conns)
    (hfail : writeOk c.id = false) :
    Action.close c.id ∈ actionsFor writeOk e conns := by
  induction conns with
  | nil => cases hc
  | cons d ds ih =>
    rcases List.mem_cons.mp hc with rfl | hc
    · simp [actionsFor, hfail]
    · by_cases h : writeOk d.id <;> simp [actionsFor, h, ih hc]

theorem mem_failIds {writeOk : Nat → Bool} {conns : List Connection} {i : Nat} :
    i ∈ failIds writeOk conns ↔ ∃ c ∈ conns, writeOk c.id = false ∧ c.id = i := by
  simp only [failIds, List.mem_map, List.mem_filter]
  constructor
  · rintro ⟨c, ⟨hc, hf⟩, hi⟩
    exact ⟨c, hc, by simpa using hf, hi⟩
  · rintro ⟨c, hc, hf, hi⟩
    exact ⟨c, ⟨hc, by simpa using hf⟩, hi⟩

theorem get_isSome_iff {r : Registry} {cid : Nat} :
    (r.get cid).isSome ↔ ∃ c ∈ r.store, c.id = cid := by
  rw [Option.isSome_iff_exists]
  constructor
  · rintro ⟨c, hc⟩
    exact ⟨c, (get_mem_of_eq_some hc).1, (get_mem_of_eq_some hc).2⟩
  · rintro ⟨c, hc, hid⟩
    cases hg : r.get cid with
    | some d => exact ⟨d, rfl⟩
    | none => exact absurd hid ((get_eq_none_iff r cid).mp hg c hc)

theorem filterMap_get_ids {r : Registry} : ∀ {l : List Nat},
    (∀ cid ∈ l, (r.get cid).isSome) →
    (l.filterMap r.get).map (fun c => c.id) = l := by
  intro l
  induction l with
  | nil => intro _; simp
  | cons cid rest ih =>
    intro h
    rcases Option.isSome_iff_exists.mp (h cid (List.mem_cons_self _ _)) with ⟨c, hc⟩
    simp only [List.filterMap_cons, hc, List.map_cons]
    rw [ih (fun x hx => h x (List.mem_cons_of_mem _ hx))]
    congr 1
    exact (get_mem_of_eq_some hc).2

theorem resolve_mem {r : Registry} {t : Target} {c : Connection}
    (hc : c ∈ r.resolve t) : c ∈ r.store := by
  cases t with
  | all => exact hc
  | user u =>
    simp only [Registry.resolve] at hc
    rcases List.mem_filterMap.mp hc with ⟨cid, _, hget⟩
    exact (get_mem_of_eq_some hget).1
  | session s =>
    simp only [Registry.resolve] at hc
    rcases List.mem_filterMap.mp hc with ⟨cid, _, hget⟩
    exact (get_mem_of_eq_some hget).1
  | pred p =>
    exact (List.mem_filter.mp hc).1

theorem resolve_ids_nodup {r : Registry} (hInv : Inv r) (t : Target) :
    ((r.resolve t).map (fun c => c.id)).Nodup := by
  cases t with
  | all => exact hInv.idsNodup
  | user u =>
    have hall : ∀ cid ∈ r.userIndex u, (r.get cid).isSome := by
      intro cid hcid
      rcases hInv.userSound u cid hcid with ⟨c, hc, hid, _⟩
      exact get_isSome_iff.mpr ⟨c, hc, hid⟩
    simp only [Registry.resolve]
    rw [filterMap_get_ids hall]
    exact hInv.userNodup u
  | session s =>
    have hall : ∀ cid ∈ r.sessionIndex s, (r.get cid).isSome := by
      intro cid hcid
      rcases hInv.sessSound s cid hcid with ⟨c, hc, hid, _⟩
      exact get_isSome_iff.mpr ⟨c, hc, hid⟩
    simp only [Registry.resolve]
    rw [filterMap_get_ids hall]
    exact hInv.sessNodup s
  | pred p =>
    have hsub : List.Sublist ((r.resolve (.pred p)).map (fun c => c.id)) r.storeIds :=
      (List.filter_sublist r.store).map (fun c => c.id)
    exact hsub.nodup hInv.idsNodup

/-- C2: dispatch is best-effort and per-connection independent.  With `n`
resolved connections of which `k` writes fail: the event frame is written to
every resolved connection, the result reports `n - k` succeeded and `k`
failed deliveries, exactly the `k` failed connections are removed from the
registry (their transports closed, every other stored connection surviving),
the registry's total count drops by exactly `k`, and a dispatch call never
surfaces an error for individual write failures — errors arise only from a
structurally invalid (malformed) raw target. -/
theorem dispatch_best_effort (r : Registry) (hInv : Inv r) (writeOk : Nat → Bool)
    (now : Nat) (e : SSEvent) (t : Target) :
    ((r.dispatch writeOk now e t).2.1.succeeded
        = (r.resolve t).length - ((r.resolve t).filter (fun c => ! writeOk c.id)).length)
    ∧ ((r.dispatch writeOk now e t).2.1.failed
        = ((r.resolve t).filter (fun c => ! writeOk c.id)).length)
    ∧ (∀ c ∈ r.resolve t, Action.write c.id e ∈ (r.dispatch writeOk now e t).2.2)
    ∧ (∀ c ∈ r.resolve t, writeOk c.id = true →
        c.id ∈ (r.dispatch writeOk now e t).1.storeIds)
    ∧ (∀ c ∈ r.resolve t, writeOk c.id = false →
        c.id ∉ (r.dispatch writeOk now e t).1.storeIds
        ∧ Action.close c.id ∈ (r.dispatch writeOk now e t).2.2)
    ∧ (∀ d ∈ r.store, d.id ∉ failIds writeOk (r.resolve t) →
        d.id ∈ (r.dispatch writeOk now e t).1.storeIds)
    ∧ ((r.dispatch writeOk now e t).1.count
        = r.count - ((r.resolve t).filter (fun c => ! writeOk c.id)).length)
    ∧ (∀ rt : RawTarget, ∀ tgt : Target, parseTarget rt = .ok tgt →
        r.dispatchRaw writeOk now e rt = .ok (r.dispatch writeOk now e tgt))
    ∧ (∀ rt : RawTarget, parseTarget rt = .error .UnknownTargetError →
        r.dispatchRaw writeOk now e rt = .error .UnknownTargetError) := by
  have hres := dispatchList_result writeOk now e (r.resolve t) r
  have hids := dispatchList_storeIds writeOk now e (r.resolve t) r
  have hnd := resolve_ids_nodup hInv t
  have hmem : ∀ c ∈ r.resolve t, c.id ∈ r.storeIds := fun c hc =>
    mem_storeIds.mpr ⟨c, resolve_mem hc, rfl⟩
  have hsum := length_filter_add_length_filter_not (fun c => writeOk c.id) (r.resolve t)
  simp only [Registry.dispatch]
  refine ⟨?_, hres.2.1, ?_, ?_, ?_, ?_, ?_, ?_, ?_⟩
  · rw [hres.1]
    omega
  · intro c hc
    rw [hres.2.2]
    exact write_mem_actionsFor hc
  · intro c hc hok
    rw [hids, List.mem_filter]
    refine ⟨hmem c hc, ?_⟩
    simp only [decide_eq_true_eq]
    intro hfail
    rcases mem_failIds.mp hfail with ⟨d, hd, hdf, hdi⟩
    have : d = c := List.inj_on_of_nodup_map hnd hd hc hdi
    rw [this] at hdf
    rw [hok] at hdf
    cases hdf
  · intro c hc hfail
    constructor
    · rw [hids, List.mem_filter]
      rintro ⟨_, hpred⟩
      simp only [decide_eq_true_eq] at hpred
      exact hpred (mem_failIds.mpr ⟨c, hc, hfail, rfl⟩)
    · rw [hres.2.2]
      exact close_mem_actionsFor hc hfail
  · intro d hd hni
    rw [hids, List.mem_filter]
    refine ⟨mem_storeIds.mpr ⟨d, hd, rfl⟩, ?_⟩
    simp only [decide_eq_true_eq]
    exact hni
  · exact dispatchList_count writeOk now e (r.resolve t) r hnd hmem hInv.idsNodup
  · intro rt tgt hp
    simp [Registry.dispatchRaw, hp, Except.map, Registry.dispatch]
  · intro rt hp
    simp [Registry.dispatchRaw, hp, Except.map]

/-- Example connection: id 1, user 1, session 10. -/
def connA : Connection := ⟨1, some 1, some 10, [], 0, 0⟩

/-- Example connection: id 2, user 1. -/
def connB : Connection := ⟨2, some 1, none, [], 0, 0⟩

/-- Example connection: id 3, user 2. -/
def connC : Connection := ⟨3, some 2, none, [], 0, 0⟩

/-- Example connection: id 4, user 7. -/
def connD : Connection := ⟨4, some 7, none, [], 0, 0⟩

/-- Example connection: id 5, user 7. -/
def connE : Connection := ⟨5, some 7, none, [], 0, 0⟩

/-- Example connection: id 6, user 7. -/
def connF : Connection := ⟨6, some 7, none, [], 0, 0⟩

/-- A transport oracle under which only the write to connection 5 fails. -/
def wOkDrop5 : Nat → Bool := fun cid => ! (cid == 5)

/-- A registry holding three connections of user 7. -/
def regUser7 : Registry := runOps [.add connD, .add connE, .add connF]

/-- A concrete notification event envelope. -/
def evNote : SSEvent := ⟨"notification", none, "hello"⟩

/-- Witness for C2 at a concrete input: dispatch to a user with three
connections where exactly one write fails delivers to the other two and
reduces the registry's total count from 3 to 2. -/
theorem dispatch_best_effort_witness :
    (regUser7.dispatch wOkDrop5 50 evNote (.user 7)).2.1.succeeded = 2
    ∧ (regUser7.dispatch wOkDrop5 50 evNote (.user 7)).2.1.failed = 1
    ∧ (regUser7.dispatch wOkDrop5 50 evNote (.user 7)).1.count = 2
    ∧ regUser7.count = 3
    ∧ Action.write 4 evNote ∈ (regUser7.dispatch wOkDrop5 50 evNote (.user 7)).2.2
    ∧ Action.write 6 evNote ∈ (regUser7.dispatch wOkDrop5 50 evNote (.user 7)).2.2
    ∧ Action.close 5 ∈ (regUser7.dispatch wOkDrop5 50 evNote (.user 7)).2.2
    ∧ 5 ∉ (regUser7.dispatch wOkDrop5 50 evNote (.user 7)).1.storeIds := by
  obtain ⟨h1, h2, h3, h4, h5, h6, h7, h8, h9⟩ :=
    dispatch_best_effort regUser7 (inv_runOps [.add connD, .add connE, .add connF])
      wOkDrop5 50 evNote (.user 7)
  refine ⟨?_, ?_, ?_, by decide, ?_, ?_, ?_, ?_⟩
  · rw [h1]; decide
  · rw [h2]; decide
  · rw [h7]; decide
  · exact h3 connD (by decide)
  · exact h3 connF (by decide)
  · exact (h5 connE (by decide) (by decide)).2
  · exact (h5 connE (by decide) (by decide)).1

/-- Witness for C3 at a concrete input: re-adding id 1 fails with
`DuplicateIdError`; adding fresh id 2 inserts into the store and the
applicable indexes. -/
theorem add_duplicate_or_insert_witness :
    (runOps [.add connA]).add connA = .error .DuplicateIdError
    ∧ (∃ r1, (runOps [.add connA]).add connB = .ok r1 ∧ connB ∈ r1.store
        ∧ (∀ u, connB.userId = some u → connB.id ∈ r1.byUser u)
        ∧ (∀ s, connB.sessionId = some s → connB.id ∈ r1.bySession s)) :=
  ⟨(add_duplicate_or_insert (runOps [.add connA]) connA).1 (by decide),
   (add_duplicate_or_insert (runOps [.add connA]) connB).2 (by decide)⟩

/-- Witness for C4 at a concrete input: removing the absent id 99 leaves the
one-connection registry unchanged, and removal of id 1 is idempotent. -/
theorem remove_noop_idempotent_witness :
    ((runOps [.add connA]).remove 99 = runOps [.add connA])
    ∧ ((runOps [.add connA]).remove 1).remove 1 = (runOps [.add connA]).remove 1 :=
  ⟨(remove_noop_idempotent (runOps [.add connA]) 99).1 (by decide),
   (remove_noop_idempotent (runOps [.add connA]) 1).2⟩

/-- Modelled from the spec: the heartbeat keep-alive ping event. -/
def pingEvent : SSEvent := ⟨"ping", none, ""⟩

/-- Modelled from the spec: heartbeat configuration options recognised by the
SSE manager (README defaults: 30000 ms interval, 60000 ms timeout, 1000 max
connections). -/
structure SSEConfig where
  heartbeatInterval : Nat
  connectionTimeout : Nat
  maxConnections : Nat

/-- The README's default SSE manager configuration. -/
def defaultConfig : SSEConfig := ⟨30000, 60000, 1000⟩

/-- The ids of the connections whose `lastSeenAt` is older than the timeout
at time `now`. -/
def Registry.staleIds (r : Registry) (now timeout : Nat) : List Nat :=
  (r.store.filter (fun c => c.lastSeenAt + timeout < now)).map (fun c => c.id)

/-- Remove one connection and close its transport; absent ids are skipped so
a transport is never closed twice. -/
def Registry.evict (r : Registry) (cid : Nat) : Registry × List Action :=
  match r.get cid with
  | none => (r, [])
  | some _ => (r.remove cid, [.close cid])

/-- Evict each listed connection in turn. -/
def evictList : List Nat → Registry → Registry × List Action
  | [], r => (r, [])
  | cid :: rest, r =>
    let out := r.evict cid
    let out2 := evictList rest out.1
    (out2.1, out.2 ++ out2.2)

/-- Modelled from the spec: one heartbeat tick — (1) dispatch a `ping` event
to all connections, reusing the dispatch path and tolerating individual
failures the same way, then (2) remove and close the connections whose
`lastSeenAt` was older than the timeout at the time of the tick. -/
def Registry.heartbeatTick (r : Registry) (writeOk : Nat → Bool) (now timeout : Nat) :
    Registry × List Action :=
  let stale := r.staleIds now timeout
  let out := r.dispatch writeOk now pingEvent .all
  let out2 := evictList stale out.1
  (out2.1, out.2.2 ++ out2.2)

theorem evict_fst (r : Registry) (cid : Nat) : (r.evict cid).1 = r.remove cid := by
  unfold Registry.evict Registry.remove
  cases hg : r.get cid <;> simp

theorem evictList_storeIds (cids : List Nat) : ∀ r : Registry,
    (evictList cids r).1.storeIds = r.storeIds.filter (fun i => ¬ i ∈ cids) := by
  induction cids with
  | nil =>
    intro r
    rw [List.filter_eq_self.mpr]
    · simp [evictList]
    · intro i _; simp
  | cons cid rest ih =>
    intro r
    simp only [evictList]
    rw [ih, evict_fst, storeIds_remove, @List.filter_filter _ _ _ r.storeIds]
    apply List.filter_congr
    intro i _
    by_cases hic : i = cid <;> simp [hic]

theorem close_mem_evictList (cids : List Nat) : ∀ r : Registry, ∀ cid : Nat,
    cid ∈ cids → cid ∈ r.storeIds → Action.close cid ∈ (evictList cids r).2 := by
  induction cids with
  | nil => intro r cid h _; cases h
  | cons c rest ih =>
    intro r cid hmem hpresent
    simp only [evictList, List.mem_append]
    rcases List.mem_cons.mp hmem with rfl | hmem
    · left
      have hsome : (r.get cid).isSome := get_isSome_iff.mpr (mem_storeIds.mp hpresent)
      unfold Registry.evict
      rcases Option.isSome_iff_exists.mp hsome with ⟨d, hd⟩
      rw [hd]
      simp
    · by_cases hcc : cid = c
      · subst hcc
        left
        have hsome : (r.get cid).isSome := get_isSome_iff.mpr (mem_storeIds.mp hpresent)
        unfold Registry.evict
        rcases Option.isSome_iff_exists.mp hsome with ⟨d, hd⟩
        rw [hd]
        simp
      · right
        apply ih
        · exact hmem
        · rw [evict_fst, storeIds_remove, List.mem_filter]
          exact ⟨hpresent, by simpa using hcc⟩

theorem mem_staleIds {r : Registry} {now timeout cid : Nat} :
    cid ∈ r.staleIds now timeout
      ↔ ∃ c ∈ r.store, c.lastSeenAt + timeout < now ∧ c.id = cid := by
  simp only [Registry.staleIds, List.mem_map, List.mem_filter]
  constructor
  · rintro ⟨c, ⟨hc, hs⟩, hi⟩
    exact ⟨c, hc, by simpa using hs, hi⟩
  · rintro ⟨c, hc, hs, hi⟩
    exact ⟨c, ⟨hc, by simpa using hs⟩, hi⟩

/-- C5: at a heartbeat tick, every connection whose `lastSeenAt` is older
than the configured timeout at the time of the tick is removed from the
registry and its transport closed, and every connection refreshed within the
window (not older than the timeout, with its ping write succeeding) survives
the tick. -/
theorem heartbeat_tick_spec (r : Registry) (hInv : Inv r) (writeOk : Nat → Bool)
    (now timeout : Nat) (c : Connection) (hc : c ∈ r.store) :
    (c.lastSeenAt + timeout < now →
        c.id ∉ (r.heartbeatTick writeOk now timeout).1.storeIds
        ∧ Action.close c.id ∈ (r.heartbeatTick writeOk now timeout).2)
    ∧ (¬ c.lastSeenAt + timeout < now → writeOk c.id = true →
        c.id ∈ (r.heartbeatTick writeOk now timeout).1.storeIds) := by
  have hresolve : r.resolve .all = r.store := rfl
  have hids := dispatchList_storeIds writeOk now pingEvent r.store r
  have hacts := (dispatchList_result writeOk now pingEvent r.store r).2.2
  have hfinal : (r.heartbeatTick writeOk now timeout).1.storeIds
      = (r.storeIds.filter (fun i => ¬ i ∈ failIds writeOk r.store)).filter
          (fun i => ¬ i ∈ r.staleIds now timeout) := by
    simp only [Registry.heartbeatTick, Registry.dispatch, hresolve]
    rw [evictList_storeIds, hids]
  have hactsplit : (r.heartbeatTick writeOk now timeout).2
      = (dispatchList writeOk now pingEvent r.store r).2.2
        ++ (evictList (r.staleIds now timeout)
              (dispatchList writeOk now pingEvent r.store r).1).2 := by
    simp only [Registry.heartbeatTick, Registry.dispatch, hresolve]
  constructor
  · intro hstale
    have hin : c.id ∈ r.staleIds now timeout := mem_staleIds.mpr ⟨c, hc, hstale, rfl⟩
    constructor
    · rw [hfinal, List.mem_filter]
      rintro ⟨_, hpred⟩
      simp only [decide_eq_true_eq] at hpred
      exact hpred hin
    · rw [hactsplit, List.mem_append]
      cases hok : writeOk c.id with
      | false =>
        left
        rw [hacts]
        exact close_mem_actionsFor hc hok
      | true =>
        right
        apply close_mem_evictList _ _ _ hin
        rw [hids, List.mem_filter]
        refine ⟨mem_storeIds.mpr ⟨c, hc, rfl⟩, ?_⟩
        simp only [decide_eq_true_eq]
        intro hfail
        rcases mem_failIds.mp hfail with ⟨d, hd, hdf, hdi⟩
        have hdc : d = c := List.inj_on_of_nodup_map hInv.idsNodup hd hc hdi
        rw [hdc, hok] at hdf
        cases hdf
  · intro hfresh hok
    rw [hfinal, List.mem_filter, List.mem_filter]
    refine ⟨⟨mem_storeIds.mpr ⟨c, hc, rfl⟩, ?_⟩, ?_⟩
    · simp only [decide_eq_true_eq]
      intro hfail
      rcases mem_failIds.mp hfail with ⟨d, hd, hdf, hdi⟩
      have hdc : d = c := List.inj_on_of_nodup_map hInv.idsNodup hd hc hdi
      rw [hdc, hok] at hdf
      cases hdf
    · simp only [decide_eq_true_eq]
      intro hin
      rcases mem_staleIds.mp hin with ⟨d, hd, hds, hdi⟩
      have hdc : d = c := List.inj_on_of_nodup_map hInv.idsNodup hd hc hdi
      rw [hdc] at hds
      exact hfresh hds

/-- Example connection silent for 59000 ms at time 100000 (within a 60000 ms
window). -/
def connFresh : Connection := ⟨1, some 1, none, [], 0, 41000⟩

/-- Example connection silent for 61000 ms at time 100000 (outside a 60000 ms
window). -/
def connStale : Connection := ⟨2, some 2, none, [], 0, 39000⟩

/-- A registry with one fresh and one stale connection. -/
def regHeartbeat : Registry := runOps [.add connFresh, .add connStale]

/-- Witness for C5 at a concrete input: with the README's 60000 ms timeout, a
connection silent for 61000 ms is evicted and closed by the tick, and one
silent for 59000 ms survives it. -/
theorem heartbeat_tick_spec_witness :
    (2 ∉ (regHeartbeat.heartbeatTick (fun _ => true) 100000
        defaultConfig.connectionTimeout).1.storeIds
      ∧ Action.close 2 ∈ (regHeartbeat.heartbeatTick (fun _ => true) 100000
        defaultConfig.connectionTimeout).2)
    ∧ 1 ∈ (regHeartbeat.heartbeatTick (fun _ => true) 100000
        defaultConfig.connectionTimeout).1.storeIds := by
  have h1 := heartbeat_tick_spec regHeartbeat (inv_runOps [.add connFresh, .add connStale])
    (fun _ => true) 100000 defaultConfig.connectionTimeout connStale (by decide)
  have h2 := heartbeat_tick_spec regHeartbeat (inv_runOps [.add connFresh, .add connStale])
    (fun _ => true) 100000 defaultConfig.connectionTimeout connFresh (by decide)
  exact ⟨h1.1 (by decide), h2.2 (by decide) rfl⟩

/-- Modelled from the spec: the service facade's `notifyUser` — build a
`notification` envelope and dispatch it to the user target. -/
def notifyUser (r : Registry) (writeOk : Nat → Bool) (now : Nat) (u : Nat)
    (payload : String) : Registry × DispatchResult × List Action :=
  r.dispatch writeOk now ⟨"notification", none, payload⟩ (.user u)

/-- Modelled from the spec: `isUserConnected` — whether the user has at least
one registered connection. -/
def isUserConnected (r : Registry) (u : Nat) : Bool :=
  ! (r.byUser u).isEmpty

/-- Modelled from the spec: `getConnectedUsersCount` — the number of distinct
users having at least one connection. -/
def getConnectedUsersCount (r : Registry) : Nat :=
  ((r.store.filterMap (fun c => c.userId)).dedup).length

/-- The connection ids a list of transport actions writes to. -/
def writtenIds (acts : List Action) : List Nat :=
  acts.filterMap (fun a =>
    match a with
    | .write cid _ => some cid
    | .close _ => none)

/-- A registry after registering A (user 1), B (user 1) and C (user 2). -/
def regScenario : Registry := runOps [.add connA, .add connB, .add connC]

/-- C6: in the end-to-end scenario with connections A (user 1), B (user 1)
and C (user 2): `notifyUser 1` writes the event to exactly A (id 1) and B
(id 2) and not to C (id 3); `getConnectedUsersCount` returns 2; after
`unregister(A)` the user 1 is still connected because B remains, and after
also `unregister(B)` it no longer is. -/
theorem facade_scenario :
    writtenIds (notifyUser regScenario (fun _ => true) 10 1 "m").2.2 = [2, 1]
    ∧ (notifyUser regScenario (fun _ => true) 10 1 "m").2.1.succeeded = 2
    ∧ (notifyUser regScenario (fun _ => true) 10 1 "m").2.1.failed = 0
    ∧ 3 ∉ writtenIds (notifyUser regScenario (fun _ => true) 10 1 "m").2.2
    ∧ getConnectedUsersCount regScenario = 2
    ∧ isUserConnected (regScenario.remove 1) 1 = true
    ∧ isUserConnected ((regScenario.remove 1).remove 2) 1 = false := by
  decide

/-- Modelled from the spec: the aggregate statistics snapshot of section 4.4
(the panel's server statistics). -/
structure SSEStatsSnapshot where
  totalConnections : Nat
  userConnections : Nat
  sessionConnections : Nat
  staleConnections : Nat
  isHealthy : Bool
deriving DecidableEq

/-- Modelled from the spec: `snapshot()` computes total connections, distinct
users, distinct sessions, and stale connections at the instant of the call;
`isHealthy` is a derived policy predicate, here: the total is within the
configured maximum. -/
def Registry.snapshot (r : Registry) (now timeout maxConnections : Nat) :
    SSEStatsSnapshot :=
  { totalConnections := r.store.length
    userConnections := ((r.store.filterMap (fun c => c.userId)).dedup).length
    sessionConnections := ((r.store.filterMap (fun c => c.sessionId)).dedup).length
    staleConnections := (r.store.filter (fun c => c.lastSeenAt + timeout < now)).length
    isHealthy := r.store.length ≤ maxConnections }

/-- C7: the stats snapshot is a pure read whose fields are the number of
connections in the primary store, the number of distinct users with at least
one connection (exactly the users whose `byUser` set is non-empty), the
number of distinct sessions, the number of connections whose `lastSeenAt` is
older than the timeout at the instant of the call, plus a derived `isHealthy`
flag. -/
theorem snapshot_spec (r : Registry) (hInv : Inv r) (now timeout maxC : Nat) :
    (r.snapshot now timeout maxC).totalConnections = r.count
    ∧ (r.snapshot now timeout maxC).userConnections
        = (r.store.filterMap (fun c => c.userId)).toFinset.card
    ∧ (∀ u, u ∈ (r.store.filterMap (fun c => c.userId)).toFinset ↔ r.byUser u ≠ [])
    ∧ (r.snapshot now timeout maxC).sessionConnections
        = (r.store.filterMap (fun c => c.sessionId)).toFinset.card
    ∧ (∀ s, s ∈ (r.store.filterMap (fun c => c.sessionId)).toFinset ↔ r.bySession s ≠ [])
    ∧ (r.snapshot now timeout maxC).staleConnections
        = r.store.countP (fun c => decide (c.lastSeenAt + timeout < now))
    ∧ ((r.snapshot now timeout maxC).isHealthy = true ↔ r.count ≤ maxC) := by
  refine ⟨rfl, ?_, ?_, ?_, ?_, ?_, ?_⟩
  · rw [List.card_toFinset]; rfl
  · intro u
    rw [List.mem_toFinset, List.mem_filterMap]
    constructor
    · rintro ⟨c, hc, hu⟩
      intro hnil
      have := hInv.userComplete c hc u hu
      rw [Registry.byUser] at hnil
      rw [hnil] at this
      cases this
    · intro hne
      rcases List.exists_mem_of_ne_nil _ hne with ⟨cid, hcid⟩
      rcases hInv.userSound u cid hcid with ⟨c, hc, _, hu⟩
      exact ⟨c, hc, hu⟩
  · rw [List.card_toFinset]; rfl
  · intro s
    rw [List.mem_toFinset, List.mem_filterMap]
    constructor
    · rintro ⟨c, hc, hs⟩
      intro hnil
      have := hInv.sessComplete c hc s hs
      rw [Registry.bySession] at hnil
      rw [hnil] at this
      cases this
    · intro hne
      rcases List.exists_mem_of_ne_nil _ hne with ⟨cid, hcid⟩
      rcases hInv.sessSound s cid hcid with ⟨c, hc, _, hs⟩
      exact ⟨c, hc, hs⟩
  · rw [List.countP_eq_length_filter]; rfl
  · simp [Registry.snapshot, Registry.count]

/-- Witness for C7 at a concrete input: the three-connection scenario
registry at time 100 with timeout 60 (all three connections stale) and the
default connection cap. -/
theorem snapshot_spec_witness :
    (regScenario.snapshot 100 60 1000).totalConnections = 3
    ∧ (regScenario.snapshot 100 60 1000).userConnections = 2
    ∧ (regScenario.snapshot 100 60 1000).sessionConnections = 1
    ∧ (regScenario.snapshot 100 60 1000).staleConnections = 3
    ∧ (regScenario.snapshot 100 60 1000).isHealthy = true
    ∧ regScenario.count = 3 := by
  have h := snapshot_spec regScenario (inv_runOps [.add connA, .add connB, .add connC])
    100 60 1000
  refine ⟨?_, by decide, by decide, by decide, ?_, by decide⟩
  · rw [h.1]; decide
  · exact h.2.2.2.2.2.2.mpr (by decide)

theorem inv_touch {r : Registry} (hInv : Inv r) (cid now : Nat) : Inv (r.touch cid now) := by
  have hid : ∀ c : Connection,
      ((if c.id = cid then { c with lastSeenAt := now } else c) : Connection).id = c.id := by
    intro c; by_cases h : c.id = cid <;> simp [h]
  have huser : ∀ c : Connection,
      ((if c.id = cid then { c with lastSeenAt := now } else c) : Connection).userId
        = c.userId := by
    intro c; by_cases h : c.id = cid <;> simp [h]
  have hsess : ∀ c : Connection,
      ((if c.id = cid then { c with lastSeenAt := now } else c) : Connection).sessionId
        = c.sessionId := by
    intro c; by_cases h : c.id = cid <;> simp [h]
  constructor
  · rw [touch_storeIds]; exact hInv.idsNodup
  · intro u x hmem
    rcases hInv.userSound u x hmem with ⟨c, hc, hcid, hcu⟩
    exact ⟨_, List.mem_map_of_mem _ hc, by rw [hid]; exact hcid, by rw [huser]; exact hcu⟩
  · intro d hd u hu
    rcases List.mem_map.mp hd with ⟨c, hc, hdc⟩
    have h1 : d.id = c.id := by rw [← hdc]; exact hid c
    have h2 : d.userId = c.userId := by rw [← hdc]; exact huser c
    rw [h1]
    exact hInv.userComplete c hc u (by rw [← h2]; exact hu)
  · exact hInv.userNodup
  · intro s x hmem
    rcases hInv.sessSound s x hmem with ⟨c, hc, hcid, hcs⟩
    exact ⟨_, List.mem_map_of_mem _ hc, by rw [hid]; exact hcid, by rw [hsess]; exact hcs⟩
  · intro d hd s hs
    rcases List.mem_map.mp hd with ⟨c, hc, hdc⟩
    have h1 : d.id = c.id := by rw [← hdc]; exact hid c
    have h2 : d.sessionId = c.sessionId := by rw [← hdc]; exact hsess c
    rw [h1]
    exact hInv.sessComplete c hc s (by rw [← h2]; exact hs)
  · exact hInv.sessNodup

theorem inv_dispatchList (writeOk : Nat → Bool) (now : Nat) (e : SSEvent)
    (conns : List Connection) : ∀ r : Registry, Inv r →
    Inv (dispatchList writeOk now e conns r).1 := by
  induction conns with
  | nil => intro r h; exact h
  | cons c cs ih =>
    intro r h
    by_cases hok : writeOk c.id
    · simp only [dispatchList, if_pos hok]
      exact ih (r.touch c.id now) (inv_touch h c.id now)
    · simp only [dispatchList, if_neg hok]
      exact ih (r.remove c.id) (inv_remove h c.id)

theorem inv_evictList (cids : List Nat) : ∀ r : Registry, Inv r →
    Inv (evictList cids r).1 := by
  induction cids with
  | nil => intro r h; exact h
  | cons c rest ih =>
    intro r h
    simp only [evictList]
    apply ih
    rw [evict_fst]
    exact inv_remove h c

theorem storeIds_add {r : Registry} {c : Connection} {r1 : Registry}
    (h : r.add c = .ok r1) : r1.storeIds = c.id :: r.storeIds := by
  unfold Registry.add at h
  cases hg : r.get c.id with
  | some d => rw [hg] at h; exact absurd h (by simp)
  | none =>
    rw [hg] at h
    cases h
    rfl

/-- The number of close actions for connection `cid` in a trace. -/
def closes (T : List Action) (cid : Nat) : Nat :=
  T.countP (fun a => decide (a = Action.close cid))

/-- Does this action write to or close connection `cid`? -/
def touches (cid : Nat) : Action → Bool
  | .write c _ => c == cid
  | .close c => c == cid

/-- After the first close of `cid` in the trace, no later action touches
`cid`: the connection is never written to after its removal and its transport
is closed at most once. -/
def closedForGood (cid : Nat) : List Action → Prop
  | [] => True
  | a :: rest =>
    if a = Action.close cid then (∀ b ∈ rest, touches cid b = false)
    else closedForGood cid rest

theorem touches_iff {x : Nat} {a : Action} :
    touches x a = true ↔ (∃ e', a = Action.write x e') ∨ a = Action.close x := by
  cases a with
  | write c e' =>
    simp only [touches, beq_iff_eq]
    constructor
    · rintro rfl; exact Or.inl ⟨e', rfl⟩
    · rintro (⟨e2, he⟩ | he) <;> simp_all
  | close c =>
    simp only [touches, beq_iff_eq]
    constructor
    · rintro rfl; exact Or.inr rfl
    · rintro (⟨e2, he⟩ | he) <;> simp_all

theorem closes_append (A B : List Action) (x : Nat) :
    closes (A ++ B) x = closes A x + closes B x := by
  simp [closes, List.countP_append]

theorem closes_eq_zero_of_untouched {T : List Action} {x : Nat}
    (h : ∀ a ∈ T, touches x a = false) : closes T x = 0 := by
  rw [closes, List.countP_eq_zero]
  intro a ha
  simp only [decide_eq_true_eq]
  intro heq
  have := h a ha
  rw [heq] at this
  simp [touches] at this

theorem close_mem_of_closes_pos {T : List Action} {x : Nat}
    (h : 0 < closes T x) : Action.close x ∈ T := by
  rw [closes, List.countP_pos_iff] at h
  rcases h with ⟨a, ha, hp⟩
  simp only [decide_eq_true_eq] at hp
  rw [← hp]
  exact ha

theorem closes_pos_of_close_mem {T : List Action} {x : Nat}
    (h : Action.close x ∈ T) : 0 < closes T x := by
  rw [closes, List.countP_pos_iff]
  exact ⟨Action.close x, h, by simp⟩

theorem closedForGood_append {x : Nat} : ∀ {A B : List Action},
    closedForGood x (A ++ B)
      ↔ (closedForGood x A
          ∧ (Action.close x ∈ A → ∀ b ∈ B, touches x b = false)
          ∧ (Action.close x ∉ A → closedForGood x B)) := by
  intro A
  induction A with
  | nil => intro B; simp [closedForGood]
  | cons a A2 ih =>
    intro B
    by_cases ha : a = Action.close x
    · subst ha
      simp only [List.cons_append, closedForGood, if_pos rfl]
      constructor
      · intro h
        refine ⟨fun b hb => h b (List.mem_append_left B hb), ?_, ?_⟩
        · intro _ b hb
          exact h b (List.mem_append_right A2 hb)
        · intro hni
          exact absurd (List.mem_cons_self _ _) hni
      · rintro ⟨h1, h2, _⟩
        intro b hb
        rcases List.mem_append.mp hb with hb | hb
        · exact h1 b hb
        · exact h2 (List.mem_cons_self _ _) b hb
    · simp only [List.cons_append, closedForGood, if_neg ha, List.append_eq]
      rw [ih]
      constructor
      · rintro ⟨h1, h2, h3⟩
        refine ⟨h1, ?_, ?_⟩
        · intro hm
          rcases List.mem_cons.mp hm with hm | hm
          · exact absurd hm.symm ha
          · exact h2 hm
        · intro hni
          exact h3 (fun hm => hni (List.mem_cons_of_mem _ hm))
      · rintro ⟨h1, h2, h3⟩
        refine ⟨h1, fun hm => h2 (List.mem_cons_of_mem _ hm), ?_⟩
        intro hni
        apply h3
        intro hm
        rcases List.mem_cons.mp hm with hm | hm
        · exact ha hm.symm
        · exact hni hm

theorem closedForGood_of_untouched {x : Nat} {T : List Action}
    (h : ∀ a ∈ T, touches x a = false) : closedForGood x T := by
  induction T with
  | nil => trivial
  | cons a rest ih =>
    have ha := h a (List.mem_cons_self _ _)
    simp only [closedForGood]
    rw [if_neg]
    · exact ih (fun b hb => h b (List.mem_cons_of_mem _ hb))
    · intro heq
      rw [heq] at ha
      simp [touches] at ha

theorem closedForGood_of_closes_le_one {x : Nat} {T : List Action}
    (honly : ∀ a ∈ T, ∃ y, a = Action.close y)
    (hcount : closes T x ≤ 1) : closedForGood x T := by
  induction T with
  | nil => trivial
  | cons a rest ih =>
    by_cases ha : a = Action.close x
    · subst ha
      simp only [closedForGood, if_pos rfl]
      intro b hb
      rcases honly b (List.mem_cons_of_mem _ hb) with ⟨y, hy⟩
      subst hy
      simp only [touches, beq_eq_false_iff_ne, ne_eq]
      intro hyx
      rw [hyx] at hb
      have h1 : 0 < closes rest x := closes_pos_of_close_mem hb
      have h2 : closes (Action.close x :: rest) x = closes rest x + 1 := by
        simp [closes, List.countP_cons]
      omega
    · simp only [closedForGood, if_neg ha]
      apply ih
      · intro b hb; exact honly b (List.mem_cons_of_mem _ hb)
      · have h2 : closes (a :: rest) x = closes rest x := by
          simp [closes, List.countP_cons, ha]
        omega

theorem mem_actionsFor {writeOk : Nat → Bool} {e : SSEvent} {a : Action} :
    ∀ {conns : List Connection},
    a ∈ actionsFor writeOk e conns ↔
      ∃ c ∈ conns, a = Action.write c.id e
        ∨ (writeOk c.id = false ∧ a = Action.close c.id) := by
  intro conns
  induction conns with
  | nil => simp [actionsFor]
  | cons c cs ih =>
    constructor
    · intro hm
      by_cases h : writeOk c.id
      · simp only [actionsFor, if_pos h, List.singleton_append] at hm
        rcases List.mem_cons.mp hm with rfl | hm
        · exact ⟨c, List.mem_cons_self _ _, Or.inl rfl⟩
        · rcases ih.mp hm with ⟨d, hd, hcase⟩
          exact ⟨d, List.mem_cons_of_mem _ hd, hcase⟩
      · have hf : writeOk c.id = false := by simpa using h
        simp only [actionsFor, if_neg h, List.cons_append, List.singleton_append] at hm
        rcases List.mem_cons.mp hm with rfl | hm
        · exact ⟨c, List.mem_cons_self _ _, Or.inl rfl⟩
        · rcases List.mem_cons.mp hm with rfl | hm
          · exact ⟨c, List.mem_cons_self _ _, Or.inr ⟨hf, rfl⟩⟩
          · rcases ih.mp hm with ⟨d, hd, hcase⟩
            exact ⟨d, List.mem_cons_of_mem _ hd, hcase⟩
    · rintro ⟨d, hd, hcase⟩
      rcases List.mem_cons.mp hd with rfl | hd
      · rcases hcase with rfl | ⟨hf, rfl⟩
        · by_cases h : writeOk d.id <;> simp [actionsFor, h]
        · simp [actionsFor, hf]
      · have hmem : a ∈ actionsFor writeOk e cs := ih.mpr ⟨d, hd, hcase⟩
        by_cases h : writeOk c.id <;> simp [actionsFor, h, hmem]

theorem closes_actionsFor {writeOk : Nat → Bool} {e : SSEvent} :
    ∀ {conns : List Connection}, (conns.map (fun c => c.id)).Nodup → ∀ x : Nat,
    closes (actionsFor writeOk e conns) x
      = if x ∈ failIds writeOk conns then 1 else 0 := by
  intro conns
  induction conns with
  | nil => intro _ x; simp [actionsFor, closes, failIds]
  | cons c cs ih =>
    intro hnd x
    simp only [List.map_cons, List.nodup_cons] at hnd
    by_cases h : writeOk c.id
    · have hfail : failIds writeOk (c :: cs) = failIds writeOk cs := by
        simp [failIds, h]
      simp only [actionsFor, if_pos h, List.singleton_append, hfail]
      rw [show closes (Action.write c.id e :: actionsFor writeOk e cs) x
            = closes (actionsFor writeOk e cs) x by simp [closes, List.countP_cons]]
      exact ih hnd.2 x
    · have hf : writeOk c.id = false := by simpa using h
      have hfail : failIds writeOk (c :: cs) = c.id :: failIds writeOk cs := by
        simp [failIds, h]
      simp only [actionsFor, if_neg h, List.cons_append, List.singleton_append,
        List.nil_append, hfail]
      by_cases hx : x = c.id
      · subst hx
        have hnotin : c.id ∉ failIds writeOk cs := by
          intro hm
          rcases mem_failIds.mp hm with ⟨d, hd, _, hdi⟩
          exact hnd.1 (hdi ▸ List.mem_map_of_mem (fun c => c.id) hd)
        rw [show closes (Action.write c.id e :: Action.close c.id :: actionsFor writeOk e cs) c.id
              = closes (actionsFor writeOk e cs) c.id + 1 by simp [closes, List.countP_cons]]
        rw [ih hnd.2 c.id, if_neg hnotin, if_pos (List.mem_cons_self _ _)]
      · rw [show closes (Action.write c.id e :: Action.close c.id :: actionsFor writeOk e cs) x
              = closes (actionsFor writeOk e cs) x by
            simp [closes, List.countP_cons, hx, Ne.symm hx]]
        rw [ih hnd.2 x]
        by_cases hm : x ∈ failIds writeOk cs
        · rw [if_pos hm, if_pos (List.mem_cons_of_mem _ hm)]
        · rw [if_neg hm, if_neg]
          intro hmm
          rcases List.mem_cons.mp hmm with h2 | h2
          · exact hx h2
          · exact hm h2

theorem touches_actionsFor {writeOk : Nat → Bool} {e : SSEvent} {x : Nat} {a : Action} :
    ∀ {conns : List Connection}, a ∈ actionsFor writeOk e conns →
    touches x a = true → x ∈ conns.map (fun c => c.id) := by
  intro conns hm ht
  rcases mem_actionsFor.mp hm with ⟨c, hc, rfl | ⟨_, rfl⟩⟩
  · rcases touches_iff.mp ht with ⟨e', he⟩ | he
    · have hcx : c.id = x := by injection he with h1 _
      exact hcx ▸ List.mem_map_of_mem _ hc
    · cases he
  · rcases touches_iff.mp ht with ⟨e', he⟩ | he
    · cases he
    · have hcx : c.id = x := by injection he with h1
      exact hcx ▸ List.mem_map_of_mem _ hc

theorem closedForGood_actionsFor {writeOk : Nat → Bool} {e : SSEvent} :
    ∀ {conns : List Connection}, (conns.map (fun c => c.id)).Nodup → ∀ x : Nat,
    closedForGood x (actionsFor writeOk e conns) := by
  intro conns
  induction conns with
  | nil => intro _ x; trivial
  | cons c cs ih =>
    intro hnd x
    simp only [List.map_cons, List.nodup_cons] at hnd
    have htail : ∀ b ∈ actionsFor writeOk e cs, touches c.id b = false := by
      intro b hb
      cases ht : touches c.id b with
      | false => rfl
      | true => exact absurd (touches_actionsFor hb ht) hnd.1
    by_cases h : writeOk c.id
    · simp only [actionsFor, if_pos h, List.singleton_append, closedForGood]
      rw [if_neg (by simp)]
      exact ih hnd.2 x
    · simp only [actionsFor, if_neg h, List.cons_append, List.singleton_append, closedForGood]
      rw [if_neg (by simp)]
      by_cases hx : Action.close c.id = Action.close x
      · rw [if_pos hx]
        have hcx : c.id = x := by injection hx
        subst hcx
        exact htail
      · rw [if_neg hx]
        exact ih hnd.2 x

theorem evictList_acts_closes_only (cids : List Nat) : ∀ r : Registry,
    ∀ a ∈ (evictList cids r).2, ∃ y, a = Action.close y := by
  induction cids with
  | nil => intro r a ha; cases ha
  | cons c rest ih =>
    intro r a ha
    simp only [evictList, List.mem_append] at ha
    rcases ha with ha | ha
    · unfold Registry.evict at ha
      cases hg : r.get c with
      | none => rw [hg] at ha; cases ha
      | some d =>
        rw [hg] at ha
        simp only [List.mem_singleton] at ha
        exact ⟨c, ha⟩
    · exact ih _ a ha

theorem evictList_closes (cids : List Nat) : ∀ (r : Registry) (x : Nat),
    closes (evictList cids r).2 x
      = if x ∈ cids ∧ x ∈ r.storeIds then 1 else 0 := by
  induction cids with
  | nil => intro r x; simp [evictList, closes]
  | cons c rest ih =>
    intro r x
    simp only [evictList]
    rw [closes_append, ih]
    have hrm : (r.evict c).1.storeIds = r.storeIds.filter (fun i => i ≠ c) := by
      rw [evict_fst, storeIds_remove]
    by_cases hxc : x = c
    · subst hxc
      by_cases hpres : x ∈ r.storeIds
      · have hhead : closes (r.evict x).2 x = 1 := by
          unfold Registry.evict
          rcases Option.isSome_iff_exists.mp (get_isSome_iff.mpr (mem_storeIds.mp hpres))
            with ⟨d, hd⟩
          rw [hd]
          simp [closes, List.countP_cons]
        rw [hhead]
        have hrec : ¬ (x ∈ rest ∧ x ∈ (r.evict x).1.storeIds) := by
          rintro ⟨_, hm⟩
          rw [hrm, List.mem_filter] at hm
          simp at hm
        rw [if_neg hrec, if_pos ⟨List.mem_cons_self _ _, hpres⟩]
      · have hhead : closes (r.evict x).2 x = 0 := by
          unfold Registry.evict
          cases hg : r.get x with
          | none => simp [closes]
          | some d =>
            exact absurd (mem_storeIds.mpr
              ⟨d, (get_mem_of_eq_some hg).1, (get_mem_of_eq_some hg).2⟩) hpres
        rw [hhead]
        have hrec : ¬ (x ∈ rest ∧ x ∈ (r.evict x).1.storeIds) := by
          rintro ⟨_, hm⟩
          rw [hrm, List.mem_filter] at hm
          simp at hm
        rw [if_neg hrec, if_neg]
        rintro ⟨_, hp⟩
        exact hpres hp
    · have hhead : closes (r.evict c).2 x = 0 := by
        unfold Registry.evict
        cases hg : r.get c with
        | none => simp [closes]
        | some d => simp [closes, List.countP_cons, Ne.symm hxc]
      rw [hhead]
      have hmm : (x ∈ rest ∧ x ∈ (r.evict c).1.storeIds) ↔ (x ∈ c :: rest ∧ x ∈ r.storeIds) := by
        rw [hrm, List.mem_filter]
        constructor
        · rintro ⟨h1, h2, _⟩
          exact ⟨List.mem_cons_of_mem _ h1, h2⟩
        · rintro ⟨h1, h2⟩
          rcases List.mem_cons.mp h1 with h1 | h1
          · exact absurd h1 hxc
          · exact ⟨h1, h2, by simpa using hxc⟩
      by_cases hcond : x ∈ c :: rest ∧ x ∈ r.storeIds
      · rw [if_pos (hmm.mpr hcond), if_pos hcond]
      · rw [if_neg (fun h2 => hcond (hmm.mp h2)), if_neg hcond]

/-- Modelled from the spec: a system-level operation against the shared
registry over a connection's lifecycle — registration by the transport layer,
unregistration on client disconnect, an application dispatch, and a heartbeat
tick. -/
inductive SysOp where
  | register (c : Connection)
  | unregister (cid : Nat)
  | dispatch (writeOk : Nat → Bool) (now : Nat) (e : SSEvent) (t : Target)
  | tick (writeOk : Nat → Bool) (now timeout : Nat)

/-- One system step: the successor registry and the transport actions the
step performs (a failed registration changes nothing). -/
def stepSys (r : Registry) : SysOp → Registry × List Action
  | .register c =>
    match r.add c with
    | .ok r1 => (r1, [])
    | .error _ => (r, [])
  | .unregister cid => r.evict cid
  | .dispatch writeOk now e t =>
    ((r.dispatch writeOk now e t).1, (r.dispatch writeOk now e t).2.2)
  | .tick writeOk now timeout => r.heartbeatTick writeOk now timeout

/-- Run a sequence of system operations, concatenating the action traces. -/
def runSys : Registry → List SysOp → Registry × List Action
  | r, [] => (r, [])
  | r, op :: rest =>
    ((runSys (stepSys r op).1 rest).1,
      (stepSys r op).2 ++ (runSys (stepSys r op).1 rest).2)

/-- The connection ids a sequence of system operations registers. -/
def regIds : List SysOp → List Nat
  | [] => []
  | .register c :: rest => c.id :: regIds rest
  | .unregister _ :: rest => regIds rest
  | .dispatch _ _ _ _ :: rest => regIds rest
  | .tick _ _ _ :: rest => regIds rest

theorem tick_fst (r : Registry) (writeOk : Nat → Bool) (now timeout : Nat) :
    (r.heartbeatTick writeOk now timeout).1
      = (evictList (r.staleIds now timeout)
          (dispatchList writeOk now pingEvent r.store r).1).1 := rfl

theorem tick_snd (r : Registry) (writeOk : Nat → Bool) (now timeout : Nat) :
    (r.heartbeatTick writeOk now timeout).2
      = (dispatchList writeOk now pingEvent r.store r).2.2
        ++ (evictList (r.staleIds now timeout)
              (dispatchList writeOk now pingEvent r.store r).1).2 := rfl

theorem tick_final_storeIds (r : Registry) (writeOk : Nat → Bool) (now timeout : Nat) :
    (r.heartbeatTick writeOk now timeout).1.storeIds
      = (r.storeIds.filter (fun i => ¬ i ∈ failIds writeOk r.store)).filter
          (fun i => ¬ i ∈ r.staleIds now timeout) := by
  rw [tick_fst, evictList_storeIds, dispatchList_storeIds]

theorem stepSys_inv {r : Registry} (hInv : Inv r) (op : SysOp) : Inv (stepSys r op).1 := by
  cases op with
  | register c =>
    simp only [stepSys]
    cases ha : r.add c with
    | ok r1 => exact inv_add hInv ha
    | error e => exact hInv
  | unregister cid =>
    show Inv (r.evict cid).1
    rw [evict_fst]
    exact inv_remove hInv cid
  | dispatch writeOk now e t =>
    exact inv_dispatchList writeOk now e (r.resolve t) r hInv
  | tick writeOk now timeout =>
    show Inv (r.heartbeatTick writeOk now timeout).1
    rw [tick_fst]
    exact inv_evictList _ _ (inv_dispatchList _ _ _ _ r hInv)

theorem stepSys_write_mem {r : Registry} (hInv : Inv r) (op : SysOp) {x : Nat} {e' : SSEvent}
    (h : Action.write x e' ∈ (stepSys r op).2) : x ∈ r.storeIds := by
  cases op with
  | register c =>
    simp only [stepSys] at h
    cases ha : r.add c with
    | ok r1 => rw [ha] at h; cases h
    | error e2 => rw [ha] at h; cases h
  | unregister cid =>
    replace h : Action.write x e' ∈ (r.evict cid).2 := h
    unfold Registry.evict at h
    cases hg : r.get cid with
    | none => rw [hg] at h; cases h
    | some d =>
      rw [hg] at h
      simp only [List.mem_singleton] at h
      cases h
  | dispatch writeOk now e t =>
    replace h : Action.write x e' ∈ (r.dispatch writeOk now e t).2.2 := h
    rw [show (r.dispatch writeOk now e t).2.2
          = actionsFor writeOk e (r.resolve t) from
        (dispatchList_result writeOk now e (r.resolve t) r).2.2] at h
    rcases mem_actionsFor.mp h with ⟨c, hc, he | ⟨_, he⟩⟩
    · have hcx : c.id = x := by injection he with h1 _; exact h1.symm
      exact mem_storeIds.mpr ⟨c, resolve_mem hc, hcx⟩
    · cases he
  | tick writeOk now timeout =>
    replace h : Action.write x e' ∈ (r.heartbeatTick writeOk now timeout).2 := h
    rw [tick_snd] at h
    rcases List.mem_append.mp h with h | h
    · rw [show (dispatchList writeOk now pingEvent r.store r).2.2
            = actionsFor writeOk pingEvent r.store from
          (dispatchList_result writeOk now pingEvent r.store r).2.2] at h
      rcases mem_actionsFor.mp h with ⟨c, hc, he | ⟨_, he⟩⟩
      · have hcx : c.id = x := by injection he with h1 _; exact h1.symm
        exact mem_storeIds.mpr ⟨c, hc, hcx⟩
      · cases he
    · rcases evictList_acts_closes_only _ _ _ h with ⟨y, hy⟩
      cases hy

theorem stepSys_close_mem {r : Registry} (hInv : Inv r) (op : SysOp) {x : Nat}
    (h : Action.close x ∈ (stepSys r op).2) :
    x ∈ r.storeIds ∧ x ∉ (stepSys r op).1.storeIds := by
  cases op with
  | register c =>
    simp only [stepSys] at h
    cases ha : r.add c with
    | ok r1 => rw [ha] at h; cases h
    | error e2 => rw [ha] at h; cases h
  | unregister cid =>
    replace h : Action.close x ∈ (r.evict cid).2 := h
    have hfst : (stepSys r (.unregister cid)).1 = r.remove cid := evict_fst r cid
    rw [hfst, storeIds_remove]
    unfold Registry.evict at h
    cases hg : r.get cid with
    | none => rw [hg] at h; cases h
    | some d =>
      rw [hg] at h
      simp only [List.mem_singleton] at h
      have hx : x = cid := by injection h
      subst hx
      refine ⟨mem_storeIds.mpr ⟨d, (get_mem_of_eq_some hg).1, (get_mem_of_eq_some hg).2⟩, ?_⟩
      rw [List.mem_filter]
      rintro ⟨_, hp⟩
      simp at hp
  | dispatch writeOk now e t =>
    replace h : Action.close x ∈ (r.dispatch writeOk now e t).2.2 := h
    rw [show (r.dispatch writeOk now e t).2.2 = actionsFor writeOk e (r.resolve t) from
        (dispatchList_result writeOk now e (r.resolve t) r).2.2] at h
    rcases mem_actionsFor.mp h with ⟨c, hc, he | ⟨hf, he⟩⟩
    · cases he
    · have hcx : c.id = x := by injection he with h1; exact h1.symm
      have hxids : x ∈ r.storeIds := mem_storeIds.mpr ⟨c, resolve_mem hc, hcx⟩
      have hxfail : x ∈ failIds writeOk (r.resolve t) := mem_failIds.mpr ⟨c, hc, hf, hcx⟩
      refine ⟨hxids, ?_⟩
      have hids : (stepSys r (.dispatch writeOk now e t)).1.storeIds
          = r.storeIds.filter (fun i => ¬ i ∈ failIds writeOk (r.resolve t)) :=
        dispatchList_storeIds writeOk now e (r.resolve t) r
      rw [hids, List.mem_filter]
      rintro ⟨_, hp⟩
      simp only [decide_eq_true_eq] at hp
      exact hp hxfail
  | tick writeOk now timeout =>
    replace h : Action.close x ∈ (r.heartbeatTick writeOk now timeout).2 := h
    have hfinal := tick_final_storeIds r writeOk now timeout
    rw [tick_snd] at h
    rcases List.mem_append.mp h with h | h
    · rw [show (dispatchList writeOk now pingEvent r.store r).2.2
            = actionsFor writeOk pingEvent r.store from
          (dispatchList_result writeOk now pingEvent r.store r).2.2] at h
      rcases mem_actionsFor.mp h with ⟨c, hc, he | ⟨hf, he⟩⟩
      · cases he
      · have hcx : c.id = x := by injection he with h1; exact h1.symm
        have hxids : x ∈ r.storeIds := mem_storeIds.mpr ⟨c, hc, hcx⟩
        have hxfail : x ∈ failIds writeOk r.store := mem_failIds.mpr ⟨c, hc, hf, hcx⟩
        refine ⟨hxids, ?_⟩
        show x ∉ (r.heartbeatTick writeOk now timeout).1.storeIds
        rw [hfinal, List.mem_filter]
        rintro ⟨hmem2, _⟩
        rw [List.mem_filter] at hmem2
        rcases hmem2 with ⟨_, hp⟩
        simp only [decide_eq_true_eq] at hp
        exact hp hxfail
    · have hpos := closes_pos_of_close_mem h
      rw [evictList_closes] at hpos
      by_cases hcond : x ∈ r.staleIds now timeout
          ∧ x ∈ (dispatchList writeOk now pingEvent r.store r).1.storeIds
      · rcases hcond with ⟨hstale, hmid⟩
        have hmid2 := hmid
        rw [dispatchList_storeIds, List.mem_filter] at hmid2
        refine ⟨hmid2.1, ?_⟩
        show x ∉ (r.heartbeatTick writeOk now timeout).1.storeIds
        rw [hfinal, List.mem_filter]
        rintro ⟨_, hp⟩
        simp only [decide_eq_true_eq] at hp
        exact hp hstale
      · rw [if_neg hcond] at hpos
        exact absurd hpos (lt_irrefl 0)

theorem stepSys_closes_one {r : Registry} (hInv : Inv r) (op : SysOp) {x : Nat}
    (h1 : x ∈ r.storeIds) (h2 : x ∉ (stepSys r op).1.storeIds) :
    closes (stepSys r op).2 x = 1 := by
  cases op with
  | register c =>
    exfalso
    apply h2
    simp only [stepSys]
    cases ha : r.add c with
    | ok r1 => rw [storeIds_add ha]; exact List.mem_cons_of_mem _ h1
    | error e2 => exact h1
  | unregister cid =>
    have hfst : (stepSys r (.unregister cid)).1 = r.remove cid := evict_fst r cid
    rw [hfst, storeIds_remove] at h2
    have hx : x = cid := by
      by_contra hne
      exact h2 (List.mem_filter.mpr ⟨h1, by simpa using hne⟩)
    subst hx
    show closes (r.evict x).2 x = 1
    unfold Registry.evict
    rcases Option.isSome_iff_exists.mp (get_isSome_iff.mpr (mem_storeIds.mp h1)) with ⟨d, hd⟩
    rw [hd]
    simp [closes, List.countP_cons]
  | dispatch writeOk now e t =>
    have hids : (stepSys r (.dispatch writeOk now e t)).1.storeIds
        = r.storeIds.filter (fun i => ¬ i ∈ failIds writeOk (r.resolve t)) :=
      dispatchList_storeIds writeOk now e (r.resolve t) r
    rw [hids] at h2
    have hxfail : x ∈ failIds writeOk (r.resolve t) := by
      by_contra hnf
      exact h2 (List.mem_filter.mpr ⟨h1, by simpa using hnf⟩)
    rw [show (stepSys r (.dispatch writeOk now e t)).2
          = actionsFor writeOk e (r.resolve t) from
        (dispatchList_result writeOk now e (r.resolve t) r).2.2]
    rw [closes_actionsFor (resolve_ids_nodup hInv t) x, if_pos hxfail]
  | tick writeOk now timeout =>
    have hmid : (dispatchList writeOk now pingEvent r.store r).1.storeIds
        = r.storeIds.filter (fun i => ¬ i ∈ failIds writeOk r.store) :=
      dispatchList_storeIds writeOk now pingEvent r.store r
    have hacts1 : (dispatchList writeOk now pingEvent r.store r).2.2
        = actionsFor writeOk pingEvent r.store :=
      (dispatchList_result writeOk now pingEvent r.store r).2.2
    replace h2 : x ∉ (r.heartbeatTick writeOk now timeout).1.storeIds := h2
    rw [tick_final_storeIds] at h2
    show closes (r.heartbeatTick writeOk now timeout).2 x = 1
    rw [tick_snd, closes_append, hacts1, closes_actionsFor hInv.idsNodup x, evictList_closes]
    by_cases hfail : x ∈ failIds writeOk r.store
    · rw [if_pos hfail]
      have hnm : ¬ (x ∈ r.staleIds now timeout
          ∧ x ∈ (dispatchList writeOk now pingEvent r.store r).1.storeIds) := by
        rintro ⟨_, hm⟩
        rw [hmid, List.mem_filter] at hm
        rcases hm with ⟨_, hp⟩
        simp only [decide_eq_true_eq] at hp
        exact hp hfail
      rw [if_neg hnm]
    · rw [if_neg hfail]
      have hmidmem : x ∈ (dispatchList writeOk now pingEvent r.store r).1.storeIds := by
        rw [hmid]
        exact List.mem_filter.mpr ⟨h1, by simpa using hfail⟩
      have hstale : x ∈ r.staleIds now timeout := by
        by_contra hns
        apply h2
        refine List.mem_filter.mpr ⟨?_, by simpa using hns⟩
        exact List.mem_filter.mpr ⟨h1, by simpa using hfail⟩
      rw [if_pos ⟨hstale, hmidmem⟩]

theorem stepSys_closes_zero {r : Registry} (hInv : Inv r) (op : SysOp) {x : Nat}
    (h : x ∈ (stepSys r op).1.storeIds) : closes (stepSys r op).2 x = 0 := by
  cases op with
  | register c =>
    simp only [stepSys]
    cases ha : r.add c <;> simp [closes]
  | unregister cid =>
    have hfst : (stepSys r (.unregister cid)).1 = r.remove cid := evict_fst r cid
    rw [hfst, storeIds_remove, List.mem_filter] at h
    rcases h with ⟨_, hp⟩
    simp only [decide_eq_true_eq] at hp
    show closes (r.evict cid).2 x = 0
    unfold Registry.evict
    cases hg : r.get cid with
    | none => simp [closes]
    | some d => simp [closes, List.countP_cons, Ne.symm hp]
  | dispatch writeOk now e t =>
    have hids : (stepSys r (.dispatch writeOk now e t)).1.storeIds
        = r.storeIds.filter (fun i => ¬ i ∈ failIds writeOk (r.resolve t)) :=
      dispatchList_storeIds writeOk now e (r.resolve t) r
    rw [hids, List.mem_filter] at h
    rcases h with ⟨_, hp⟩
    simp only [decide_eq_true_eq] at hp
    rw [show (stepSys r (.dispatch writeOk now e t)).2
          = actionsFor writeOk e (r.resolve t) from
        (dispatchList_result writeOk now e (r.resolve t) r).2.2]
    rw [closes_actionsFor (resolve_ids_nodup hInv t) x, if_neg hp]
  | tick writeOk now timeout =>
    have hacts1 : (dispatchList writeOk now pingEvent r.store r).2.2
        = actionsFor writeOk pingEvent r.store :=
      (dispatchList_result writeOk now pingEvent r.store r).2.2
    replace h : x ∈ (r.heartbeatTick writeOk now timeout).1.storeIds := h
    rw [tick_final_storeIds, List.mem_filter] at h
    rcases h with ⟨hmidmem, hns⟩
    simp only [decide_eq_true_eq] at hns
    rw [List.mem_filter] at hmidmem
    rcases hmidmem with ⟨_, hnf⟩
    simp only [decide_eq_true_eq] at hnf
    show closes (r.heartbeatTick writeOk now timeout).2 x = 0
    rw [tick_snd, closes_append, hacts1, closes_actionsFor hInv.idsNodup x,
      evictList_closes, if_neg hnf, if_neg]
    rintro ⟨hs, _⟩
    exact hns hs

theorem stepSys_new_mem {r : Registry} (op : SysOp) {x : Nat}
    (h : x ∈ (stepSys r op).1.storeIds) :
    x ∈ r.storeIds ∨ ∃ c, op = .register c ∧ c.id = x := by
  cases op with
  | register c =>
    simp only [stepSys] at h
    cases ha : r.add c with
    | ok r1 =>
      rw [ha] at h
      rw [show (r1, ([] : List Action)).1 = r1 from rfl] at h
      rw [storeIds_add ha] at h
      rcases List.mem_cons.mp h with h | h
      · exact Or.inr ⟨c, rfl, h.symm⟩
      · exact Or.inl h
    | error e2 =>
      rw [ha] at h
      exact Or.inl h
  | unregister cid =>
    have hfst : (stepSys r (.unregister cid)).1 = r.remove cid := evict_fst r cid
    rw [hfst, storeIds_remove, List.mem_filter] at h
    exact Or.inl h.1
  | dispatch writeOk now e t =>
    have hids : (stepSys r (.dispatch writeOk now e t)).1.storeIds
        = r.storeIds.filter (fun i => ¬ i ∈ failIds writeOk (r.resolve t)) :=
      dispatchList_storeIds writeOk now e (r.resolve t) r
    rw [hids, List.mem_filter] at h
    exact Or.inl h.1
  | tick writeOk now timeout =>
    replace h : x ∈ (r.heartbeatTick writeOk now timeout).1.storeIds := h
    rw [tick_final_storeIds, List.mem_filter] at h
    rcases h with ⟨hm, _⟩
    rw [List.mem_filter] at hm
    exact Or.inl hm.1

theorem stepSys_good {r : Registry} (hInv : Inv r) (op : SysOp) (x : Nat) :
    closedForGood x (stepSys r op).2 := by
  cases op with
  | register c =>
    simp only [stepSys]
    cases ha : r.add c with
    | ok r1 => trivial
    | error e2 => trivial
  | unregister cid =>
    show closedForGood x (r.evict cid).2
    unfold Registry.evict
    cases hg : r.get cid with
    | none => trivial
    | some d =>
      by_cases hx : Action.close cid = Action.close x
      · simp only [closedForGood, if_pos hx]
        intro b hb
        cases hb
      · simp only [closedForGood, if_neg hx]
  | dispatch writeOk now e t =>
    rw [show (stepSys r (.dispatch writeOk now e t)).2
          = actionsFor writeOk e (r.resolve t) from
        (dispatchList_result writeOk now e (r.resolve t) r).2.2]
    exact closedForGood_actionsFor (resolve_ids_nodup hInv t) x
  | tick writeOk now timeout =>
    have hacts1 : (dispatchList writeOk now pingEvent r.store r).2.2
        = actionsFor writeOk pingEvent r.store :=
      (dispatchList_result writeOk now pingEvent r.store r).2.2
    show closedForGood x (r.heartbeatTick writeOk now timeout).2
    rw [tick_snd, hacts1, closedForGood_append]
    refine ⟨closedForGood_actionsFor hInv.idsNodup x, ?_, ?_⟩
    · intro hclose b hb
      rcases mem_actionsFor.mp hclose with ⟨c, hc, he | ⟨hf, he⟩⟩
      · cases he
      · have hcx : c.id = x := by injection he with hh; exact hh.symm
        have hxfail : x ∈ failIds writeOk r.store := mem_failIds.mpr ⟨c, hc, hf, hcx⟩
        cases ht : touches x b with
        | false => rfl
        | true =>
          exfalso
          rcases touches_iff.mp ht with ⟨e2, hby⟩ | hby
          · rcases evictList_acts_closes_only _ _ _ hb with ⟨y, hy⟩
            rw [hby] at hy
            cases hy
          · rw [hby] at hb
            have hpos := closes_pos_of_close_mem hb
            rw [evictList_closes] at hpos
            by_cases hcond : x ∈ r.staleIds now timeout
                ∧ x ∈ (dispatchList writeOk now pingEvent r.store r).1.storeIds
            · rcases hcond with ⟨_, hm⟩
              rw [dispatchList_storeIds, List.mem_filter] at hm
              rcases hm with ⟨_, hp⟩
              simp only [decide_eq_true_eq] at hp
              exact hp hxfail
            · rw [if_neg hcond] at hpos
              exact absurd hpos (lt_irrefl 0)
    · intro _
      apply closedForGood_of_closes_le_one (evictList_acts_closes_only _ _)
      rw [evictList_closes]
      split
      · exact le_refl 1
      · exact Nat.zero_le 1

theorem stepSys_untouched {r : Registry} (hInv : Inv r) (op : SysOp) {x : Nat}
    (h : x ∉ r.storeIds) :
    ∀ a ∈ (stepSys r op).2, touches x a = false := by
  intro a ha
  cases ht : touches x a with
  | false => rfl
  | true =>
    exfalso
    rcases touches_iff.mp ht with ⟨e', hae⟩ | hae
    · rw [hae] at ha
      exact h (stepSys_write_mem hInv op ha)
    · rw [hae] at ha
      exact h ((stepSys_close_mem hInv op ha).1)

theorem regIds_nodup_tail {op : SysOp} {rest : List SysOp}
    (h : (regIds (op :: rest)).Nodup) : (regIds rest).Nodup := by
  cases op with
  | register c => exact (List.nodup_cons.mp h).2
  | unregister cid => exact h
  | dispatch writeOk now e t => exact h
  | tick writeOk now timeout => exact h

theorem mem_regIds_tail {op : SysOp} {rest : List SysOp} {x : Nat}
    (h : x ∈ regIds rest) : x ∈ regIds (op :: rest) := by
  cases op with
  | register c => exact List.mem_cons_of_mem _ h
  | unregister cid => exact h
  | dispatch writeOk now e t => exact h
  | tick writeOk now timeout => exact h

theorem mem_regIds_cases {op : SysOp} {rest : List SysOp} {x : Nat}
    (h : x ∈ regIds (op :: rest)) :
    x ∈ regIds rest ∨ ∃ c, op = .register c ∧ c.id = x := by
  cases op with
  | register c =>
    rcases List.mem_cons.mp h with h | h
    · exact Or.inr ⟨c, rfl, h.symm⟩
    · exact Or.inl h
  | unregister cid => exact Or.inl h
  | dispatch writeOk now e t => exact Or.inl h
  | tick writeOk now timeout => exact Or.inl h

theorem stepSys_register_acts (r : Registry) (c : Connection) :
    (stepSys r (.register c)).2 = [] := by
  simp only [stepSys]
  cases r.add c <;> rfl

theorem stepSys_register_mem {r : Registry} {c : Connection}
    (h : c.id ∉ r.storeIds) : c.id ∈ (stepSys r (.register c)).1.storeIds := by
  simp only [stepSys]
  cases ha : r.add c with
  | ok r1 => rw [storeIds_add ha]; exact List.mem_cons_self _ _
  | error e2 =>
    exfalso
    unfold Registry.add at ha
    cases hg : r.get c.id with
    | some d =>
      exact h (mem_storeIds.mpr ⟨d, (get_mem_of_eq_some hg).1, (get_mem_of_eq_some hg).2⟩)
    | none =>
      rw [hg] at ha
      cases ha

theorem runSys_safety : ∀ (ops : List SysOp) (r : Registry), Inv r →
    (∀ x ∈ r.storeIds, x ∉ regIds ops) →
    (regIds ops).Nodup →
    (∀ x, closedForGood x (runSys r ops).2)
    ∧ (∀ x, Action.close x ∈ (runSys r ops).2 → x ∉ (runSys r ops).1.storeIds)
    ∧ (∀ x, x ∈ r.storeIds → x ∉ (runSys r ops).1.storeIds →
        closes (runSys r ops).2 x = 1)
    ∧ (∀ x, x ∈ r.storeIds → x ∈ (runSys r ops).1.storeIds →
        closes (runSys r ops).2 x = 0)
    ∧ (∀ x, x ∉ r.storeIds → x ∉ regIds ops →
        x ∉ (runSys r ops).1.storeIds ∧ ∀ a ∈ (runSys r ops).2, touches x a = false)
    ∧ (∀ x, x ∉ r.storeIds → x ∈ regIds ops → x ∉ (runSys r ops).1.storeIds →
        closes (runSys r ops).2 x = 1)
    ∧ (∀ x, x ∉ r.storeIds → x ∈ regIds ops → x ∈ (runSys r ops).1.storeIds →
        closes (runSys r ops).2 x = 0) := by
  intro ops
  induction ops with
  | nil =>
    intro r hInv hfresh hnd
    refine ⟨?_, ?_, ?_, ?_, ?_, ?_, ?_⟩
    · intro x; trivial
    · intro x hx; cases hx
    · intro x h1 h2; exact absurd h1 h2
    · intro x _ _; simp [runSys, closes]
    · intro x hx _
      exact ⟨hx, fun a ha => absurd ha (List.not_mem_nil a)⟩
    · intro x _ hx; cases hx
    · intro x _ hx; cases hx
  | cons op rest ih =>
    intro r hInv hfresh hnd
    have hInv1 : Inv (stepSys r op).1 := stepSys_inv hInv op
    have hfresh1 : ∀ x ∈ (stepSys r op).1.storeIds, x ∉ regIds rest := by
      intro x hx
      rcases stepSys_new_mem op hx with hold | ⟨c, hop, hcx⟩
      · intro hm
        exact hfresh x hold (mem_regIds_tail hm)
      · subst hop
        have hhead : c.id ∉ regIds rest := (List.nodup_cons.mp hnd).1
        rw [hcx] at hhead
        exact hhead
    obtain ⟨ih1, ih2, ih3, ih4, ih5, ih6, ih7⟩ :=
      ih (stepSys r op).1 hInv1 hfresh1 (regIds_nodup_tail hnd)
    have hrfst : (runSys r (op :: rest)).1 = (runSys (stepSys r op).1 rest).1 := rfl
    have hrsnd : (runSys r (op :: rest)).2
        = (stepSys r op).2 ++ (runSys (stepSys r op).1 rest).2 := rfl
    refine ⟨?_, ?_, ?_, ?_, ?_, ?_, ?_⟩
    · intro x
      rw [hrsnd, closedForGood_append]
      refine ⟨stepSys_good hInv op x, ?_, fun _ => ih1 x⟩
      intro hclose b hb
      have h2 := stepSys_close_mem hInv op hclose
      have hnr : x ∉ regIds rest := fun hm => hfresh x h2.1 (mem_regIds_tail hm)
      exact (ih5 x h2.2 hnr).2 b hb
    · intro x hx
      rw [hrsnd] at hx
      rw [hrfst]
      rcases List.mem_append.mp hx with hx | hx
      · have h2 := stepSys_close_mem hInv op hx
        have hnr : x ∉ regIds rest := fun hm => hfresh x h2.1 (mem_regIds_tail hm)
        exact (ih5 x h2.2 hnr).1
      · exact ih2 x hx
    · intro x h1 h2
      rw [hrfst] at h2
      rw [hrsnd, closes_append]
      by_cases hmid : x ∈ (stepSys r op).1.storeIds
      · rw [stepSys_closes_zero hInv op hmid, ih3 x hmid h2]
      · rw [stepSys_closes_one hInv op h1 hmid]
        have hnr : x ∉ regIds rest := fun hm => hfresh x h1 (mem_regIds_tail hm)
        rw [closes_eq_zero_of_untouched (ih5 x hmid hnr).2]
    · intro x h1 h2
      rw [hrfst] at h2
      rw [hrsnd, closes_append]
      have hnr : x ∉ regIds rest := fun hm => hfresh x h1 (mem_regIds_tail hm)
      by_cases hmid : x ∈ (stepSys r op).1.storeIds
      · rw [stepSys_closes_zero hInv op hmid, ih4 x hmid h2]
      · exact absurd h2 (ih5 x hmid hnr).1
    · intro x h1 h2
      have hmid : x ∉ (stepSys r op).1.storeIds := by
        intro hm
        rcases stepSys_new_mem op hm with hold | ⟨c, hop, hcx⟩
        · exact h1 hold
        · subst hop
          exact h2 (hcx ▸ List.mem_cons_self c.id (regIds rest))
      have hnr : x ∉ regIds rest := fun hm => h2 (mem_regIds_tail hm)
      obtain ⟨hfin, huntouch⟩ := ih5 x hmid hnr
      rw [hrfst, hrsnd]
      refine ⟨hfin, ?_⟩
      intro a ha
      rcases List.mem_append.mp ha with ha | ha
      · exact stepSys_untouched hInv op h1 a ha
      · exact huntouch a ha
    · intro x h1 h2 h3
      rw [hrfst] at h3
      rw [hrsnd, closes_append]
      by_cases hxrest : x ∈ regIds rest
      · have hmid : x ∉ (stepSys r op).1.storeIds := by
          intro hm
          rcases stepSys_new_mem op hm with hold | ⟨c, hop, hcx⟩
          · exact h1 hold
          · subst hop
            have hhead : c.id ∉ regIds rest := (List.nodup_cons.mp hnd).1
            rw [hcx] at hhead
            exact hhead hxrest
        rw [closes_eq_zero_of_untouched (stepSys_untouched hInv op h1),
          ih6 x hmid hxrest h3]
      · rcases mem_regIds_cases h2 with hm | ⟨c, hop, hcx⟩
        · exact absurd hm hxrest
        · subst hop
          have hmem1 : x ∈ (stepSys r (.register c)).1.storeIds := by
            rw [← hcx]
            exact stepSys_register_mem (hcx ▸ h1)
          rw [stepSys_register_acts]
          rw [show closes ([] : List Action) x = 0 by simp [closes]]
          rw [ih3 x hmem1 h3]
    · intro x h1 h2 h3
      rw [hrfst] at h3
      rw [hrsnd, closes_append]
      by_cases hxrest : x ∈ regIds rest
      · have hmid : x ∉ (stepSys r op).1.storeIds := by
          intro hm
          rcases stepSys_new_mem op hm with hold | ⟨c, hop, hcx⟩
          · exact h1 hold
          · subst hop
            have hhead : c.id ∉ regIds rest := (List.nodup_cons.mp hnd).1
            rw [hcx] at hhead
            exact hhead hxrest
        rw [closes_eq_zero_of_untouched (stepSys_untouched hInv op h1),
          ih7 x hmid hxrest h3]
      · rcases mem_regIds_cases h2 with hm | ⟨c, hop, hcx⟩
        · exact absurd hm hxrest
        · subst hop
          have hmem1 : x ∈ (stepSys r (.register c)).1.storeIds := by
            rw [← hcx]
            exact stepSys_register_mem (hcx ▸ h1)
          rw [stepSys_register_acts]
          rw [show closes ([] : List Action) x = 0 by simp [closes]]
          rw [ih4 x hmem1 h3]

theorem closedForGood_split {x : Nat} : ∀ {t1 t2 : List Action},
    closedForGood x (t1 ++ Action.close x :: t2) → ∀ a ∈ t2, touches x a = false := by
  intro t1
  induction t1 with
  | nil =>
    intro t2 h a ha
    simp only [List.nil_append, closedForGood, if_pos rfl] at h
    exact h a ha
  | cons b t1' ih =>
    intro t2 h a ha
    simp only [List.cons_append, closedForGood] at h
    by_cases hb : b = Action.close x
    · rw [if_pos hb] at h
      exact h a (List.mem_append_right _ (List.mem_cons_of_mem _ ha))
    · rw [if_neg hb] at h
      exact ih h a ha

/-- C8: over every system run from the empty registry whose registration ids
are process-unique, once a connection has been removed it is never written to
or closed again (after a close of `cid` in the trace, no later action touches
`cid`), a closed connection never reappears in the registry, every registered
connection absent at the end of the run had its transport closed exactly once
(whether removal came from disconnect, write failure or heartbeat eviction),
and a connection still registered at the end was never closed. -/
theorem connection_closed_once (ops : List SysOp) (hnd : (regIds ops).Nodup) :
    (∀ cid t1 t2,
        (runSys Registry.empty ops).2 = t1 ++ Action.close cid :: t2 →
        ∀ a ∈ t2, touches cid a = false)
    ∧ (∀ cid, Action.close cid ∈ (runSys Registry.empty ops).2 →
        cid ∉ (runSys Registry.empty ops).1.storeIds)
    ∧ (∀ cid, cid ∈ regIds ops → cid ∉ (runSys Registry.empty ops).1.storeIds →
        closes (runSys Registry.empty ops).2 cid = 1)
    ∧ (∀ cid, cid ∈ regIds ops → cid ∈ (runSys Registry.empty ops).1.storeIds →
        closes (runSys Registry.empty ops).2 cid = 0) := by
  have hempty : ∀ x ∈ Registry.empty.storeIds, x ∉ regIds ops := by
    intro x hx
    simp [Registry.empty, Registry.storeIds] at hx
  obtain ⟨h1, h2, h3, h4, h5, h6, h7⟩ :=
    runSys_safety ops Registry.empty inv_empty hempty hnd
  refine ⟨?_, h2, ?_, ?_⟩
  · intro cid t1 t2 heq a ha
    exact closedForGood_split (heq ▸ h1 cid) a ha
  · intro cid hm hf
    exact h6 cid (by simp [Registry.empty, Registry.storeIds]) hm hf
  · intro cid hm hf
    exact h7 cid (by simp [Registry.empty, Registry.storeIds]) hm hf

/-- A concrete system run: register A and B, dispatch to all (both writes
succeed), unregister A (client disconnect), then one heartbeat tick. -/
def sysScenario : List SysOp :=
  [.register connA, .register connB, .dispatch (fun _ => true) 5 evNote .all,
   .unregister 1, .tick (fun _ => true) 10 1000]

/-- Witness for C8 at a concrete input: in the scenario run, connection 1
(disconnected) is closed exactly once and stays out of the registry, while
connection 2 (still registered) is never closed. -/
theorem connection_closed_once_witness :
    closes (runSys Registry.empty sysScenario).2 1 = 1
    ∧ closes (runSys Registry.empty sysScenario).2 2 = 0
    ∧ 1 ∉ (runSys Registry.empty sysScenario).1.storeIds := by
  obtain ⟨h1, h2, h3, h4⟩ := connection_closed_once sysScenario (by decide)
  exact ⟨h3 1 (by decide) (by decide), h4 2 (by decide) (by decide), by decide⟩

/-- The client-side statistics shape declared in `SSETestPanel`
(`interface SSEStats`). -/
structure SSEStats where
  totalConnections : Nat
  connectedUsers : Nat
  userConnections : Nat
  sessionConnections : Nat
  staleConnections : Nat
  isHealthy : Bool
deriving DecidableEq

/-- The observable outcome of the GET request in `SSETestPanel.fetchStats`:
an ok response whose json parses, an ok response whose json parsing throws,
a non-ok response, or a fetch that throws. -/
inductive FetchStatsOutcome where
  | respOk (body : SSEStats)
  | respOkBadJson
  | respNotOk (status : Nat)
  | fetchThrows

/-- `fetchStats` from `SSETestPanel`: `setStats(data)` runs only when
`response.ok` holds and the json body parses; a non-ok response is skipped by
the `if (response.ok)` guard and a thrown fetch or json parse is caught and
merely logged, so every one of those paths leaves the `stats` state
untouched. -/
def fetchStats (prev : Option SSEStats) : FetchStatsOutcome → Option SSEStats
  | .respOk body => some body
  | .respOkBadJson => prev
  | .respNotOk _ => prev
  | .fetchThrows => prev

/-- C9: the test panel's `fetchStats` updates the displayed stats state only
when the HTTP response is ok (and its body parses): a non-ok status, a thrown
fetch, or a json parse failure leaves the previously displayed stats value
unchanged. -/
theorem fetchStats_spec (prev : Option SSEStats) :
    (∀ body, fetchStats prev (.respOk body) = some body)
    ∧ (∀ st, fetchStats prev (.respNotOk st) = prev)
    ∧ fetchStats prev .respOkBadJson = prev
    ∧ fetchStats prev .fetchThrows = prev :=
  ⟨fun _ => rfl, fun _ => rfl, rfl, rfl⟩

/-- The observable outcome of the POST request in
`SSETestPanel.sendTestEvent`. -/
inductive SendOutcome where
  | okJson
  | okBadJson
  | notOk (status : Nat)
  | fetchThrows

/-- A state mutation or effect of the test panel component. -/
inductive PanelStep where
  | setLoading (b : Bool)
  | postRequest
  | logResult
  | logError
deriving DecidableEq

/-- `sendTestEvent` from `SSETestPanel`, as its ordered effect trace:
`setIsLoading(true)` runs first, then the POST; on success the parsed result
is logged; a non-ok status is turned into a thrown error and, like a thrown
fetch or json parse, caught and logged; the `finally` block always runs
`setIsLoading(false)` last. -/
def sendTestEvent (outcome : SendOutcome) : List PanelStep :=
  [.setLoading true, .postRequest]
    ++ (match outcome with
        | .okJson => [.logResult]
        | .okBadJson => [.logError]
        | .notOk _ => [.logError]
        | .fetchThrows => [.logError])
    ++ [.setLoading false]

/-- The `isLoading` state after a trace of panel steps. -/
def loadingAfter (init : Bool) : List PanelStep → Bool
  | [] => init
  | .setLoading b :: rest => loadingAfter b rest
  | .postRequest :: rest => loadingAfter init rest
  | .logResult :: rest => loadingAfter init rest
  | .logError :: rest => loadingAfter init rest

/-- C10: for every invocation of the test panel's `sendTestEvent` — success,
non-ok status, or a thrown fetch/json-parse — `isLoading` is set to true
before the POST request and is false once the invocation completes (the
`finally` block runs last), so a failed send never leaves the panel's send
buttons permanently disabled. -/
theorem sendTestEvent_loading (outcome : SendOutcome) (init : Bool) :
    (sendTestEvent outcome).take 2 = [.setLoading true, .postRequest]
    ∧ loadingAfter init (sendTestEvent outcome) = false
    ∧ (sendTestEvent outcome).getLast? = some (.setLoading false) := by
  cases outcome <;> exact ⟨rfl, rfl, rfl⟩

end SSE
